import Mathlib

/-!
Shallow embedding of the matchengine pipeline (src/matchengine.py) for
verification of the specification claims.

Python values (trial documents, criteria, store documents, configuration
settings) are modelled by the inductive type `JVal`.  Objects and arrays are
encoded as constructor chains (`objCons`/`objNil`, `arrCons`/`arrNil`) rather
than nested `List`s so that decidable equality derives and evaluates in the
kernel.  Python dicts preserve insertion order; all dictionary operations
below keep that order (updates in place, new keys appended at the end),
mirroring CPython semantics.

Fallible Python code (KeyError, AttributeError, RuntimeError from mutating a
dict during iteration, IndexError) is modelled with `Except`; unbounded while
loops driven by work queues take a fuel parameter and report exhaustion as an
error, so that all definitions are structurally recursive and evaluate by
`rfl`/`decide`.
-/

inductive JVal where
  | str (s : String)
  | int (n : Int)
  | bool (b : Bool)
  | null
  | arrNil
  | arrCons (hd tl : JVal)
  | objNil
  | objCons (k : String) (v rest : JVal)
deriving DecidableEq

instance : Inhabited JVal := ⟨JVal.null⟩

/-- Build an object chain from a list of key/value pairs (insertion order). -/
def jobj : List (String × JVal) → JVal :=
  fun l => l.foldr (fun kv r => JVal.objCons kv.1 kv.2 r) JVal.objNil

/-- Build an array chain from a list of values. -/
def jarr : List JVal → JVal :=
  fun l => l.foldr JVal.arrCons JVal.arrNil

/-- Entries of an object chain, or `none` when the value is not a dict
(this is the `isinstance(value, dict)` test). -/
def JVal.entries? : JVal → Option (List (String × JVal))
  | .objNil => some []
  | .objCons k v r => (JVal.entries? r).map (fun es => (k, v) :: es)
  | _ => none

/-- Items of an array chain, or `none` when the value is not a list
(this is the `isinstance(value, list)` test). -/
def JVal.items? : JVal → Option (List JVal)
  | .arrNil => some []
  | .arrCons h t => (JVal.items? t).map (fun xs => h :: xs)
  | _ => none

/-- Lookup of a key in an object chain (Python `d[k]` / `k in d`). -/
def objLookup : JVal → String → Option JVal
  | .objCons k v r, key => if k = key then some v else objLookup r key
  | _, _ => none

/-- Number of entries of an object chain (`len(d)`); counts along the chain. -/
def objLen : JVal → Nat
  | .objCons _ _ r => 1 + objLen r
  | _ => 0

/-- Python `d.setdefault(k, v)` on the object itself: returns the updated
object; a missing key is appended at the end of the dict. -/
def objSetdefaultVal : JVal → String → JVal → JVal
  | .objCons k v r, key, d =>
      if k = key then .objCons k v r else .objCons k v (objSetdefaultVal r key d)
  | .objNil, key, d => .objCons key d .objNil
  | v, _, _ => v

/-- Python truthiness of a value (used by the `ignore` configuration flag). -/
def pyTruthy : JVal → Bool
  | .bool b => b
  | .int n => n ≠ 0
  | .str s => s ≠ ""
  | .null => false
  | .arrNil => false
  | .objNil => false
  | .arrCons _ _ => true
  | .objCons _ _ _ => true

/-- Association list lookup (first occurrence), for Lean-level dicts such as
the multi-collection query and the transform configuration. -/
def assocGet {κ α : Type} [DecidableEq κ] : List (κ × α) → κ → Option α
  | [], _ => none
  | (k, v) :: r, key => if k = key then some v else assocGet r key

/-- Association list update in place; a missing key is appended at the end
(Python dict assignment `d[k] = v`). -/
def assocSet {κ α : Type} [DecidableEq κ] : List (κ × α) → κ → α → List (κ × α)
  | [], key, v => [(key, v)]
  | (k, w) :: r, key, v =>
      if k = key then (k, v) :: r else (k, w) :: assocSet r key v

/-- Association list deletion of a key (Python `del d[k]`). -/
def assocDel {κ α : Type} [DecidableEq κ] : List (κ × α) → κ → List (κ × α)
  | [], _ => []
  | (k, w) :: r, key => if k = key then r else (k, w) :: assocDel r key

/-- Python `d.setdefault(k, v)` on an association list: the current value (or
the inserted default) together with the updated list. -/
def assocSetdefault {κ α : Type} [DecidableEq κ] (l : List (κ × α)) (key : κ) (d : α) :
    α × List (κ × α) :=
  match assocGet l key with
  | some v => (v, l)
  | none => (d, l ++ [(key, d)])

/-- Python `d.update(e)` folded over the entries of `e`: existing keys are
overwritten in place, new keys are appended in order. -/
def dUpdateList {κ α : Type} [DecidableEq κ] (l : List (κ × α)) (e : List (κ × α)) :
    List (κ × α) :=
  e.foldl (fun acc kv => assocSet acc kv.1 kv.2) l

/-- Set-comprehension style deduplication preserving first occurrences. -/
def dedupJ : List JVal → List JVal :=
  fun l => l.foldl (fun acc x => if x ∈ acc then acc else acc ++ [x]) []

/-- Components of a parent path: dict keys and list indices. -/
inductive PathElem where
  | key (s : String)
  | idx (n : Nat)
deriving DecidableEq

instance : Inhabited PathElem := ⟨PathElem.key ""⟩

/-- The string carried by a `key` component (integer indices give `none`):
this is the `not isinstance(item, int)` filter of the level computation. -/
def PathElem.asKey : PathElem → Option String
  | .key s => some s
  | .idx _ => none

/-- JSON encoding of a path element, as passed to transform functions. -/
def PathElem.toJVal : PathElem → JVal
  | .key s => .str s
  | .idx n => .int (Int.ofNat n)

/-- Navigation to the value at a path inside a document. -/
def getAt : List PathElem → JVal → Option JVal
  | [], v => some v
  | .key k :: ps, v =>
      match objLookup v k with
      | some w => getAt ps w
      | none => none
  | .idx i :: ps, v =>
      match v.items? with
      | some xs =>
          match xs.get? i with
          | some w => getAt ps w
          | none => none
      | none => none

/-- In-place modification of the value at a path (fuel-driven so that it
evaluates in the kernel); identity when the path does not exist. -/
def modifyAtF : Nat → List PathElem → (JVal → JVal) → JVal → JVal
  | 0, _, _, v => v
  | _ + 1, [], f, v => f v
  | n + 1, .key k :: ps, f, .objCons k1 v r =>
      if k1 = k then .objCons k1 (modifyAtF n ps f v) r
      else .objCons k1 v (modifyAtF n (.key k :: ps) f r)
  | n + 1, .idx 0 :: ps, f, .arrCons h t => .arrCons (modifyAtF n ps f h) t
  | n + 1, .idx (i + 1) :: ps, f, .arrCons h t =>
      .arrCons h (modifyAtF n (.idx i :: ps) f t)
  | _ + 1, _ :: _, _, v => v

/-- Structural size of a value; bounds the fuel needed by `modifyAtF`. -/
def JVal.jsize : JVal → Nat
  | .arrCons h t => 1 + JVal.jsize h + JVal.jsize t
  | .objCons _ v r => 1 + JVal.jsize v + JVal.jsize r
  | _ => 1

/-- In-place modification of the value at a path, with sufficient fuel. -/
def modAt (ps : List PathElem) (f : JVal → JVal) (v : JVal) : JVal :=
  modifyAtF (ps.length + v.jsize + 1) ps f v

/-!
Section: Match tree builder and path enumerator

Faithful embedding of `create_match_tree` (src/matchengine.py:122-150) and
`get_match_paths` (src/matchengine.py:153-163).  The networkx DiGraph is
modelled by a node list in insertion order (node attributes `criteria_list`
and `is_or`) plus an edge list; every non-root node gets exactly one incoming
edge at creation time, so the unique root-to-leaf path of `nx.shortest_path`
is recovered by following the single parent of each node.
-/

structure MTNode where
  criteria_list : List JVal
  is_or : Bool
deriving DecidableEq

structure MatchTreeG where
  nodes : List (Nat × MTNode)
  edges : List (Nat × Nat)
deriving DecidableEq

inductive TreeErr where
  | typeError
  | keyError
  | fuel
deriving DecidableEq

/-- Append a criterion to the `criteria_list` of one node. -/
def mtAppendCriteria (g : MatchTreeG) (nid : Nat) (c : JVal) : MatchTreeG :=
  { g with nodes := g.nodes.map (fun nv =>
      if nv.1 = nid then (nv.1, { nv.2 with criteria_list := nv.2.criteria_list ++ [c] }) else nv) }

/-- One step of the `create_match_tree` while loop: pop `(parent_id, values)`
from the work stack and dispatch on each label of the criterion dict.  The
deque is used LIFO (`append`/`pop`), modelled by a list with its head as the
top of the stack. -/
def buildEntry (parentId : Nat) (values : JVal) (parentIsOr : Bool)
    (ent : String × JVal) (st : List (Nat × JVal) × Nat × MatchTreeG) :
    Except TreeErr (List (Nat × JVal) × Nat × MatchTreeG) :=
  let (stack, nodeId, g) := st
  match ent with
  | (label, value) =>
    if label = "and" then
      match value.items? with
      | some xs => .ok (xs.foldl (fun q item => (parentId, item) :: q) stack, nodeId, g)
      | none => .error .typeError
    else if label = "or" then
      match value.items? with
      | some xs =>
          let g1 : MatchTreeG :=
            { nodes := g.nodes ++ [(nodeId, ⟨[], true⟩)],
              edges := g.edges ++ [(parentId, nodeId)] }
          .ok (xs.foldl (fun q item => (nodeId, item) :: q) stack, nodeId + 1, g1)
      | none => .error .typeError
    else if parentIsOr then
      let g1 : MatchTreeG :=
        { nodes := g.nodes ++ [(nodeId, ⟨[values], false⟩)],
          edges := g.edges ++ [(parentId, nodeId)] }
      .ok (stack, nodeId + 1, g1)
    else
      .ok (stack, nodeId, mtAppendCriteria g parentId (jobj [(label, value)]))

/-- Process all label entries of one popped criterion dict in order. -/
def buildEntries (parentId : Nat) (values : JVal) (parentIsOr : Bool) :
    List (String × JVal) → (List (Nat × JVal) × Nat × MatchTreeG) →
    Except TreeErr (List (Nat × JVal) × Nat × MatchTreeG)
  | [], st => .ok st
  | e :: rest, st =>
      match buildEntry parentId values parentIsOr e st with
      | .ok st1 => buildEntries parentId values parentIsOr rest st1
      | .error er => .error er

/-- The `create_match_tree` while loop, with fuel. -/
def buildLoop : Nat → List (Nat × JVal) → Nat → MatchTreeG → Except TreeErr MatchTreeG
  | 0, _, _, _ => .error .fuel
  | _ + 1, [], _, g => .ok g
  | n + 1, (parentId, values) :: stack, nodeId, g =>
      let parentIsOr :=
        match assocGet g.nodes parentId with
        | some nd => nd.is_or
        | none => false
      match values.entries? with
      | some es =>
          match buildEntries parentId values parentIsOr es (stack, nodeId, g) with
          | .ok (stack1, nodeId1, g1) => buildLoop n stack1 nodeId1 g1
          | .error er => .error er
      | none => .error .typeError

/-- Embedding of `create_match_tree`: node 0 is the root with an empty
`criteria_list`; the work stack is seeded with the clause items (appended in
order, hence popped last-first). -/
def create_match_tree (fuel : Nat) (match_clause : JVal) : Except TreeErr MatchTreeG :=
  match match_clause.items? with
  | some items =>
      buildLoop fuel (items.foldl (fun q item => ((0 : Nat), item) :: q) []) 1
        { nodes := [(0, ⟨[], false⟩)], edges := [] }
  | none => .error .typeError

/-- Out-degree of a node: number of edges leaving it. -/
def mtOutDegree (g : MatchTreeG) (n : Nat) : Nat :=
  (g.edges.filter (fun e => e.1 = n)).length

/-- The unique parent of a node (its single incoming edge). -/
def mtParent (g : MatchTreeG) (n : Nat) : Option Nat :=
  (g.edges.find? (fun e => e.2 = n)).map (fun e => e.1)

/-- Root-to-node path by following parent links (`nx.shortest_path` on the
tree produced by `create_match_tree`). -/
def mtPathTo (g : MatchTreeG) : Nat → Nat → Except TreeErr (List Nat)
  | 0, _ => .error .fuel
  | _ + 1, 0 => .ok [0]
  | fuel + 1, n =>
      match mtParent g n with
      | some p =>
          match mtPathTo g fuel p with
          | .ok ps => .ok (ps ++ [n])
          | .error er => .error er
      | none => .error .keyError

/-- Concatenated `criteria_list`s of the nodes along a path. -/
def mtCriteriaAlong (g : MatchTreeG) (path : List Nat) : List JVal :=
  path.foldl (fun acc n =>
    acc ++ (match assocGet g.nodes n with
            | some nd => nd.criteria_list
            | none => [])) []

/-- Embedding of `get_match_paths`: leaves are the nodes of out-degree 0 in
insertion order; each yields the concatenation of the `criteria_list`s along
its unique root-to-leaf path. -/
def get_match_paths (g : MatchTreeG) : Except TreeErr (List (List JVal)) :=
  let leaves := (g.nodes.map (fun nv => nv.1)).filter (fun n => mtOutDegree g n = 0)
  leaves.foldlM (fun acc leaf =>
    if leaf = 0 then .ok (acc ++ [mtCriteriaAlong g [0]])
    else
      match mtPathTo g (g.nodes.length + 1) leaf with
      | .ok path => .ok (acc ++ [mtCriteriaAlong g path])
      | .error er => .error er) []

/-!
Section: Match clause extractor

Faithful embedding of `extract_match_clauses_from_trial`
(src/matchengine.py:71-119).  Work queue items hold the recorded path and the
parent key; the parent value is read from the current trial at pop time,
which coincides with the Python reference semantics because the only
mutations are key insertions via `setdefault` (no key is ever removed or
replaced).  The CPython rule that a dict iterator raises RuntimeError when
the dict changes size during iteration is modelled by a size check after each
processed entry.  Yields made before an exception are kept, as a consumer of
the generator would see them.
-/

structure MatchClauseData where
  match_clause : JVal
  parent_path : List PathElem
  level : String
  parent_value : JVal
deriving DecidableEq

inductive ExErr where
  | attributeError
  | runtimeError
  | indexError
  | keyError
  | typeError
  | fuel
deriving DecidableEq

/-- Whitespace test used by the embedding of `str.strip()`. -/
def isWsChar (c : Char) : Bool := c = ' ' ∨ c = '\t' ∨ c = '\n' ∨ c = '\r'

/-- Character-level embedding of Python `s.lower().strip()` (defined on the
character list so that it evaluates in the kernel). -/
def pyLowerStrip (s : String) : String :=
  String.mk ((((s.data.map Char.toLower).dropWhile isWsChar).reverse.dropWhile isWsChar).reverse)

/-- Character-level embedding of Python `s.upper()`. -/
def pyUpper (s : String) : String := String.mk (s.data.map Char.toUpper)

/-- Python `value.lower().strip()`; AttributeError on a non-string. -/
def lowerStrip : JVal → Except ExErr String
  | .str s => .ok (pyLowerStrip s)
  | _ => .error .attributeError

/-- Python `d.setdefault(key, dflt)` on the dict located at path `pp` inside
the trial: the resulting value together with the (possibly mutated) trial. -/
def setdefaultAt (trial : JVal) (pp : List PathElem) (key : String) (dflt : JVal) :
    Except ExErr (JVal × JVal) :=
  match getAt pp trial with
  | some dv =>
      match dv.entries? with
      | some _ =>
          match objLookup dv key with
          | some v => .ok (v, trial)
          | none => .ok (dflt, modAt pp (fun w => objSetdefaultVal w key dflt) trial)
      | none => .error .attributeError
  | none => .error .keyError

/-- The `step` suspension test: `arm.setdefault("arm_suspended", "n")` for
every element of the arm list, mutating each arm dict, collecting the
normalized flags.  A non-dict element raises AttributeError (this is what the
`list(...)` default produces: a list holding the string "arm_suspended"). -/
def checkArms (pp : List PathElem) : Nat → List JVal → JVal →
    Except ExErr (List String × JVal)
  | _, [], trial => .ok ([], trial)
  | i, a :: rest, trial =>
      match a.entries? with
      | some _ =>
          match setdefaultAt trial (pp ++ [.key "arm", .idx i]) "arm_suspended" (.str "n") with
          | .ok (v, trial1) =>
              match lowerStrip v with
              | .ok s =>
                  match checkArms pp (i + 1) rest trial1 with
                  | .ok (flags, trial2) => .ok (s :: flags, trial2)
                  | .error er => .error er
              | .error er => .error er
          | .error er => .error er
      | none => .error .attributeError

/-- Construction of the yielded `MatchClauseData`: the parent path gains the
parent key and the literal key "match"; the level is the first non-integer
element of the reversed parent path (src/matchengine.py:112-114). -/
def mkYield (path : List PathElem) (pk : PathElem) (iv : JVal) (trial : JVal) :
    Except ExErr (Option MatchClauseData × JVal) :=
  match ((path ++ [pk, PathElem.key "match"]).reverse.filterMap PathElem.asKey).head? with
  | some lvl =>
      match getAt (path ++ [pk]) trial with
      | some pv => .ok (some ⟨iv, path ++ [pk, PathElem.key "match"], lvl, pv⟩, trial)
      | none => .error .keyError
  | none => .error .indexError

/-- The suspension filtering of src/matchengine.py:102-111: whether the
clause is skipped (`continue`), together with the possibly mutated trial.
`path.getLast?` is `path[-1]`; an empty path raises IndexError. -/
def suspensionCheck (path : List PathElem) (pk : PathElem) (trial : JVal) :
    Except ExErr (Bool × JVal) :=
  match path.getLast? with
  | none => .error .indexError
  | some lastEl =>
      if lastEl = PathElem.key "arm" then
        match setdefaultAt trial (path ++ [pk]) "arm_suspended" (.str "n") with
        | .ok (v, trial1) =>
            match lowerStrip v with
            | .ok s => .ok (s = "y", trial1)
            | .error er => .error er
        | .error er => .error er
      else if lastEl = PathElem.key "dose" then
        match setdefaultAt trial (path ++ [pk]) "level_suspended" (.str "n") with
        | .ok (v, trial1) =>
            match lowerStrip v with
            | .ok s => .ok (s = "y", trial1)
            | .error er => .error er
        | .error er => .error er
      else if lastEl = PathElem.key "step" then
        match setdefaultAt trial (path ++ [pk]) "arm" (jarr [JVal.str "arm_suspended"]) with
        | .ok (armv, trial1) =>
            match armv.items? with
            | some arms =>
                match checkArms (path ++ [pk]) 0 arms trial1 with
                | .ok (flags, trial2) => .ok (flags.all (fun s => s = "y"), trial2)
                | .error er => .error er
            | none =>
                match armv with
                | .objNil => .ok (true, trial1)
                | .objCons _ _ _ => .error .attributeError
                | .str s => if s = "" then .ok (true, trial1) else .error .attributeError
                | _ => .error .typeError
        | .error er => .error er
      else .ok (false, trial)

/-- Handling of an entry whose key is "match": the suspension filtering
followed by the yield, or a silent skip (`continue`). -/
def processMatchEntry (path : List PathElem) (pk : PathElem) (iv : JVal) (trial : JVal) :
    Except ExErr (Option MatchClauseData × JVal) :=
  match suspensionCheck path pk trial with
  | .error er => .error er
  | .ok (true, trial1) => .ok (none, trial1)
  | .ok (false, trial1) => mkYield path pk iv trial1

structure ExtractSt where
  trial : JVal
  queue : List (List PathElem × PathElem)
  yields : List MatchClauseData

/-- Iteration over the entries of one popped dict.  A key "match" is handled
by `processMatchEntry`; any other entry is pushed onto the work stack.  After
each processed "match" entry the dict size is compared with the snapshot, as
the CPython dict iterator does (mutation of the iterated dict raises
RuntimeError on the next step). -/
def processEntries (path : List PathElem) (pk : PathElem) (snap : Nat) :
    List (String × JVal) → ExtractSt → ExtractSt × Option ExErr
  | [], st => (st, none)
  | (ik, iv) :: rest, st =>
      if ik = "match" then
        match processMatchEntry path pk iv st.trial with
        | .error er => (st, some er)
        | .ok (m, trial1) =>
            let st1 : ExtractSt :=
              { st with trial := trial1, yields := st.yields ++ m.toList }
            match getAt (path ++ [pk]) trial1 with
            | some dv =>
                if objLen dv = snap then processEntries path pk snap rest st1
                else (st1, some .runtimeError)
            | none => (st1, some .runtimeError)
      else
        processEntries path pk snap rest
          { st with queue := (path ++ [pk], PathElem.key ik) :: st.queue }

/-- The extractor while loop: pop a work item, look at the value; dicts go
through `processEntries`, lists push their elements with integer indices
(appended in order, hence popped last-first), scalars are ignored. -/
def extractLoop : Nat → ExtractSt → List MatchClauseData × Except ExErr JVal
  | 0, st => (st.yields, .error .fuel)
  | n + 1, st =>
      match st.queue with
      | [] => (st.yields, .ok st.trial)
      | (path, pk) :: qrest =>
          match getAt (path ++ [pk]) st.trial with
          | some v =>
              match v.entries? with
              | some es =>
                  match processEntries path pk es.length es { st with queue := qrest } with
                  | (st2, none) => extractLoop n st2
                  | (st2, some er) => (st2.yields, .error er)
              | none =>
                  match v.items? with
                  | some xs =>
                      let q1 := (List.range xs.length).foldl
                        (fun q i => (path ++ [pk], PathElem.idx i) :: q) qrest
                      extractLoop n { st with queue := q1 }
                  | none => extractLoop n { st with queue := qrest }
          | none => (st.yields, .error .keyError)

/-- Embedding of `extract_match_clauses_from_trial`: the queue is seeded with
every top-level entry except the key "match" (top-level match clauses are
suppressed); returns the yielded clause data and the final trial (or the
exception that ended the generator). -/
def extract_match_clauses_from_trial (fuel : Nat) (trial : JVal) :
    List MatchClauseData × Except ExErr JVal :=
  match trial.entries? with
  | some es =>
      extractLoop fuel
        { trial := trial,
          queue := es.foldl (fun q kv => if kv.1 = "match" then q else ([], PathElem.key kv.1) :: q) [],
          yields := [] }
  | none => ([], .error .typeError)

/-!
Section: Criteria translator

Embedding of `translate_match_path` (src/matchengine.py:166-200) and
`add_sample_ids_to_query` (src/matchengine.py:203-227).  The
`MatchCriteriaTransform` class itself lives outside src/ (only its usage is
in src/matchengine.py); its attribute surface is modelled from the spec.
The multi-collection query is a Python dict from category name to a list of
AndClauses, each AndClause a dict from document field to predicate; both
levels are modelled by ordered association lists.
-/

abbrev AndClause := List (String × JVal)
abbrev MCQ := List (String × List AndClause)
abbrev TKM := List (String × List (String × JVal))

/-- Modelled from the spec: the attribute surface of `MatchCriteriaTransform`
used by src/matchengine.py — the clinical collection name, the primary id
field, the per-collection projections, `collection_mappings` (per category a
dict holding `join_field`) and `trial_key_mappings` (per category a dict from
upper-cased trial key to a settings dict).  The class body (configuration
loading and the transform functions) is not under src/. -/
structure MatchCriteriaTransform where
  CLINICAL : String
  primary_collection_unique_field : String
  clinical_projection : List (String × JVal)
  genomic_projection : List (String × JVal)
  collection_mappings : List (String × JVal)
  trial_key_mappings : TKM

/-- Transform functions receive the transformer and the argument dict and
return entries to merge into the AndClause (spec section 4.5 and 9). -/
abbrev TransformFn := MatchCriteriaTransform → List (String × JVal) → List (String × JVal)

/-- The transform-function registry, `MatchCriteriaTransform.__dict__`:
a name either resolves to a function or the lookup is fatal. -/
abbrev Registry := String → Option TransformFn

/-- Modelled from the spec: the default `nomap` transform applies no mapping,
passing the upper-cased trial key and the trial value through as a single
document predicate. -/
def nomap : TransformFn := fun _ args =>
  match assocGet args "sample_key", assocGet args "trial_value" with
  | some (.str k), some v => [(k, v)]
  | _, _ => []

/-- Modelled from the spec: a registry holding the transforms the claims
need; only `nomap` is exercised. -/
def registry0 : Registry := fun n => if n = "nomap" then some nomap else none

inductive TrErr where
  | keyError
  | typeError
  | unknownTransform
deriving DecidableEq

/-- Append an AndClause to a category list, `categories[g].append(q)` on a
`defaultdict(list)`: a missing category is created at the end. -/
def mcqAppend : MCQ → String → AndClause → MCQ
  | [], g, c => [(g, [c])]
  | (g1, cs) :: rest, g, c =>
      if g1 = g then (g1, cs ++ [c]) :: rest else (g1, cs) :: mcqAppend rest g c

/-- Continuation of the per-key translation after the `ignore` check
(src/matchengine.py:190-198): default the transform name to `nomap`, build
the argument dict, dispatch the transform and merge its result into the
AndClause.  The `setdefault` mutations of the configuration are threaded
through the returned `TKM`. -/
def translateKeyCont (t : MatchCriteriaTransform) (reg : Registry)
    (parentPath : List PathElem) (g : String) (tk : String) (tv : JVal)
    (aq : AndClause) (tkm1 : TKM) (catMap1 : List (String × JVal)) (ku : String)
    (settings : List (String × JVal)) : Except TrErr (AndClause × TKM) :=
  match (assocSetdefault settings "sample_value" (JVal.str "nomap")).1 with
  | .str name =>
      match reg name with
      | none => .error .unknownTransform
      | some fn =>
          .ok (dUpdateList aq
                 (fn t (dUpdateList
                   [("sample_key", JVal.str ku), ("trial_value", tv),
                    ("parent_path", jarr (parentPath.map PathElem.toJVal)),
                    ("trial_path", JVal.str g), ("trial_key", JVal.str tk)]
                   (assocSetdefault settings "sample_value" (JVal.str "nomap")).2)),
               assocSet tkm1 g
                 (assocSet catMap1 ku
                   (jobj (assocSetdefault settings "sample_value" (JVal.str "nomap")).2)))
  | _ => .error .keyError

/-- Translation of a single trial key/value pair inside one criterion
(src/matchengine.py:182-198): look up (and default-populate) the key
settings, honour `ignore`, then continue with `translateKeyCont`. -/
def translateKey (t : MatchCriteriaTransform) (reg : Registry)
    (parentPath : List PathElem) (g : String) (tk : String) (tv : JVal)
    (aq : AndClause) (tkm : TKM) : Except TrErr (AndClause × TKM) :=
  match assocGet tkm g with
  | none => .error .keyError
  | some catMap =>
      match (assocSetdefault catMap (pyUpper tk) JVal.objNil).1.entries? with
      | none => .error .typeError
      | some settings =>
          match assocGet settings "ignore" with
          | some iv =>
              if pyTruthy iv then
                .ok (aq, assocSet tkm g (assocSetdefault catMap (pyUpper tk) JVal.objNil).2)
              else
                translateKeyCont t reg parentPath g tk tv aq
                  (assocSet tkm g (assocSetdefault catMap (pyUpper tk) JVal.objNil).2)
                  (assocSetdefault catMap (pyUpper tk) JVal.objNil).2 (pyUpper tk) settings
          | none =>
              translateKeyCont t reg parentPath g tk tv aq
                (assocSet tkm g (assocSetdefault catMap (pyUpper tk) JVal.objNil).2)
                (assocSetdefault catMap (pyUpper tk) JVal.objNil).2 (pyUpper tk) settings

/-- Fold of `translateKey` over the entries of one criterion value dict. -/
def translateValues (t : MatchCriteriaTransform) (reg : Registry)
    (parentPath : List PathElem) (g : String) :
    List (String × JVal) → AndClause → TKM → Except TrErr (AndClause × TKM)
  | [], aq, tkm => .ok (aq, tkm)
  | (tk, tv) :: rest, aq, tkm =>
      match translateKey t reg parentPath g tk tv aq tkm with
      | .ok (aq1, tkm1) => translateValues t reg parentPath g rest aq1 tkm1
      | .error er => .error er

/-- Translation of one criterion dict of the match path: one AndClause per
category entry, appended to that category (src/matchengine.py:179-199). -/
def translateCriterion (t : MatchCriteriaTransform) (reg : Registry)
    (parentPath : List PathElem) :
    List (String × JVal) → MCQ → TKM → Except TrErr (MCQ × TKM)
  | [], cats, tkm => .ok (cats, tkm)
  | (g, values) :: rest, cats, tkm =>
      match values.entries? with
      | none => .error .typeError
      | some ventries =>
          match translateValues t reg parentPath g ventries [] tkm with
          | .ok (aq, tkm1) => translateCriterion t reg parentPath rest (mcqAppend cats g aq) tkm1
          | .error er => .error er

/-- Fold over all criterion dicts of the match path. -/
def translateCriteria (t : MatchCriteriaTransform) (reg : Registry)
    (parentPath : List PathElem) :
    List JVal → MCQ → TKM → Except TrErr (MCQ × TKM)
  | [], cats, tkm => .ok (cats, tkm)
  | crit :: rest, cats, tkm =>
      match crit.entries? with
      | none => .error .typeError
      | some ents =>
          match translateCriterion t reg parentPath ents cats tkm with
          | .ok (cats1, tkm1) => translateCriteria t reg parentPath rest cats1 tkm1
          | .error er => .error er

/-- Embedding of `translate_match_path`: the resulting multi-collection
query together with the mutated `trial_key_mappings`. -/
def translate_match_path (t : MatchCriteriaTransform) (reg : Registry)
    (parentPath : List PathElem) (match_criterion : List JVal) :
    Except TrErr (MCQ × TKM) :=
  translateCriteria t reg parentPath match_criterion [] t.trial_key_mappings

/-- Embedding of `add_sample_ids_to_query`: append the sample-id restriction
(or the alive-only default) to the clinical category. -/
def add_sample_ids_to_query (query : MCQ) (sample_ids : Option (List String))
    (t : MatchCriteriaTransform) : MCQ :=
  match sample_ids with
  | some ids =>
      mcqAppend query t.CLINICAL [("SAMPLE_ID", jobj [("$in", jarr (ids.map JVal.str))])]
  | none => mcqAppend query t.CLINICAL [("VITAL_STATUS", JVal.str "alive")]

/-!
Section: Two-phase query runner

Embedding of `execute_clinical_query` (src/matchengine.py:230-245) and
`run_query` (src/matchengine.py:248-311).  The document store is an oracle
`Store` mapping (collection, query, projection) to the returned documents,
so the theorems quantify over arbitrary store behaviour.  The run is
instrumented: the output records every issued store query, the phase-1
documents and ids, the per-clause join-field value sets, the final clinical
ids and the (mutated) multi-collection query, alongside the emitted
results.  The bare `return RawQueryResult(..., None, None, None)` statements
of the generator are invisible to consumers and appear here as runs that
emit nothing.
-/

abbrev Store := String → JVal → JVal → List JVal

inductive RQErr where
  | keyError
  | typeError
deriving DecidableEq

/-- Value stored per collection in `all_results[key]`: the clinical entry
holds the document itself (src/matchengine.py:269), other collections hold a
dict from document id to document (src/matchengine.py:306). -/
inductive CatVal where
  | single (d : JVal)
  | dict (ds : List (JVal × JVal))
deriving DecidableEq

abbrev AllResults := List (JVal × List (String × CatVal))

structure RawQueryResult where
  multi_collection_query : MCQ
  clinical_id : JVal
  clinical_doc : CatVal
  genomic_docs : List JVal
deriving DecidableEq

structure RunQueryOutput where
  emitted : List RawQueryResult
  issued : List (String × JVal × JVal)
  phase1Docs : List (JVal × JVal)
  phase1Ids : List JVal
  finalIds : List JVal
  resultIdSets : List (List JVal)
  finalQuery : MCQ
deriving DecidableEq

instance : Inhabited RunQueryOutput := ⟨⟨[], [], [], [], [], [], []⟩⟩

/-- Mongo query document for the clinical phase. -/
def clinicalFindQuery (clauses : List AndClause) : JVal :=
  jobj [("$and", jarr (clauses.map jobj))]

/-- Projection of the clinical phase: the join field plus the configured
clinical projection. -/
def clinicalFindProjection (t : MatchCriteriaTransform) : JVal :=
  jobj (dUpdateList [(t.primary_collection_unique_field, JVal.int 1)] t.clinical_projection)

/-- Embedding of `execute_clinical_query`: when the clinical category is
present, run the conjunction of its AndClauses and key the returned
documents by their `_id`; otherwise no store query is issued.  Returns the
document map, the id set and the issued queries. -/
def execute_clinical_query (db : Store) (t : MatchCriteriaTransform) (mcq : MCQ) :
    Except RQErr (List (JVal × JVal) × List JVal × List (String × JVal × JVal)) :=
  match assocGet mcq t.CLINICAL with
  | none => .ok ([], [], [])
  | some clauses =>
      let q := clinicalFindQuery clauses
      let proj := clinicalFindProjection t
      match (db t.CLINICAL q proj).foldlM
          (fun acc d =>
            match objLookup d "_id" with
            | some i => Except.ok (assocSet acc i d)
            | none => Except.error RQErr.keyError) ([] : List (JVal × JVal)) with
      | .ok docsA => .ok (docsA, docsA.map (fun kd => kd.1), [(t.CLINICAL, q, proj)])
      | .error er => .error er

/-- Store one surviving document under its owner in `all_results`
(`all_results[jf][g][doc_id] = doc` on nested defaultdicts). -/
def arAdd : AllResults → JVal → String → JVal → JVal → Except RQErr AllResults
  | [], k, g, did, d => .ok [(k, [(g, .dict [(did, d)])])]
  | (k1, cats) :: rest, k, g, did, d =>
      if k1 = k then
        match assocGet cats g with
        | none => .ok ((k1, cats ++ [(g, .dict [(did, d)])]) :: rest)
        | some (.dict ds) => .ok ((k1, assocSet cats g (.dict (assocSet ds did d))) :: rest)
        | some (.single _) => .error .typeError
      else
        match arAdd rest k g did d with
        | .ok rest1 => .ok ((k1, cats) :: rest1)
        | .error er => .error er

/-- Group the surviving documents of one genomic clause by owner
(src/matchengine.py:303-306). -/
def addDocs (g jf : String) (ids : List JVal) :
    List JVal → AllResults → Except RQErr AllResults
  | [], ar => .ok ar
  | d :: ds, ar =>
      match objLookup d jf with
      | none => .error .keyError
      | some jv =>
          if jv ∈ ids then
            match objLookup d "_id" with
            | none => .error .keyError
            | some did =>
                match arAdd ar jv g did d with
                | .ok ar1 => addDocs g jf ids ds ar1
                | .error er => .error er
          else addDocs g jf ids ds ar

structure P2St where
  ids : List JVal
  ar : AllResults
  issued : List (String × JVal × JVal)
  ridSets : List (List JVal)

/-- The clause after the in-place `query.update` of the join-field
restriction (src/matchengine.py:289). -/
def clauseQuery (jf : String) (ids : List JVal) (q : AndClause) : AndClause :=
  dUpdateList q [(jf, jobj [("$in", jarr ids)])]

/-- Join-field values of the returned documents, as a set
(`result_ids`, src/matchengine.py:292); KeyError when a document lacks the
join field. -/
def resultIdsOf (jf : String) (results : List JVal) : Except RQErr (List JVal) :=
  match results.foldlM
      (fun acc d =>
        match objLookup d jf with
        | some jv => Except.ok (acc ++ [jv])
        | none => Except.error RQErr.keyError) ([] : List JVal) with
  | .ok rids0 => .ok (dedupJ rids0)
  | .error er => .error er

/-- `clinical_ids.intersection_update(result_ids)` (src/matchengine.py:298). -/
def survivors (rids ids : List JVal) : List JVal := ids.filter (fun x => x ∈ rids)

/-- Deletion of the owners in `clinical_ids - result_ids` from `all_results`
(src/matchengine.py:294-297). -/
def pruneAR (rids ids : List JVal) (ar : AllResults) : AllResults :=
  ar.filter (fun e => ¬ e.1 ∈ ids.filter (fun x => ¬ x ∈ rids))

/-- The inner clause loop of phase 2 (src/matchengine.py:288-306): augment
the clause in place with the join-field restriction, run it, intersect the
id set, drop eliminated owners, and (unless the dead `if not clinical_docs`
branch fires) group the surviving documents.  Returns the mutated clause
list, the new state and whether the early return was taken. -/
def processClauses (db : Store) (g jf : String) (proj : JVal) (cdocsEmpty : Bool) :
    List AndClause → P2St → Except RQErr (List AndClause × P2St × Bool)
  | [], st => .ok ([], st, false)
  | q :: rest, st =>
      match resultIdsOf jf (db g (jobj (clauseQuery jf st.ids q)) proj) with
      | .error er => .error er
      | .ok rids =>
          if cdocsEmpty then
            .ok (clauseQuery jf st.ids q :: rest,
                 ⟨survivors rids st.ids, pruneAR rids st.ids st.ar,
                  st.issued ++ [(g, jobj (clauseQuery jf st.ids q), proj)],
                  st.ridSets ++ [rids]⟩, true)
          else
            match addDocs g jf (survivors rids st.ids)
                (db g (jobj (clauseQuery jf st.ids q)) proj)
                (pruneAR rids st.ids st.ar) with
            | .error er => .error er
            | .ok ar2 =>
                match processClauses db g jf proj cdocsEmpty rest
                    ⟨survivors rids st.ids, ar2,
                     st.issued ++ [(g, jobj (clauseQuery jf st.ids q), proj)],
                     st.ridSets ++ [rids]⟩ with
                | .ok (rest1, st2, e) => .ok (clauseQuery jf st.ids q :: rest1, st2, e)
                | .error er => .error er

/-- The outer category loop of phase 2 (src/matchengine.py:276-306): the
clinical category is skipped (its query already ran); each other category
resolves its join field from `collection_mappings`, builds its projection
(the genomic projection is added only for the literal category "genomic")
and runs its clauses. -/
def processCategories (db : Store) (t : MatchCriteriaTransform) (cdocsEmpty : Bool) :
    MCQ → P2St → Except RQErr (MCQ × P2St × Bool)
  | [], st => .ok ([], st, false)
  | (g, queries) :: rest, st =>
      if g = t.CLINICAL ∧ cdocsEmpty = false then
        match processCategories db t cdocsEmpty rest st with
        | .ok (rest1, st1, e) => .ok ((g, queries) :: rest1, st1, e)
        | .error er => .error er
      else
        match assocGet t.collection_mappings g with
        | none => .error .keyError
        | some jfv =>
            match objLookup jfv "join_field" with
            | some (.str jf) =>
                match processClauses db g jf
                    (jobj (dUpdateList [(jf, JVal.int 1)]
                      (if g = "genomic" then t.genomic_projection else [])))
                    cdocsEmpty queries st with
                | .error er => .error er
                | .ok (queries1, st1, true) => .ok ((g, queries1) :: rest, st1, true)
                | .ok (queries1, st1, false) =>
                    match processCategories db t cdocsEmpty rest st1 with
                    | .ok (rest1, st2, e) => .ok ((g, queries1) :: rest1, st2, e)
                    | .error er => .error er
            | some _ => .error .typeError
            | none => .error .keyError

/-- Emission of one `RawQueryResult` (src/matchengine.py:308-311): the
literal keys "clinical" and "genomic" are read from the per-owner defaultdict
(absent entries default to an empty dict). -/
def emitOne (finalQ : MCQ) (k : JVal) (cats : List (String × CatVal)) :
    Except RQErr RawQueryResult :=
  let cdoc := (assocGet cats "clinical").getD (.dict [])
  match (assocGet cats "genomic").getD (.dict []) with
  | .dict ds => .ok ⟨finalQ, k, cdoc, ds.map (fun kv => kv.2)⟩
  | .single d =>
      match d.entries? with
      | some es => .ok ⟨finalQ, k, cdoc, es.map (fun kv => kv.2)⟩
      | none => .error .typeError

/-- Emission over all surviving owners, in insertion order. -/
def emitAll (finalQ : MCQ) : AllResults → Except RQErr (List RawQueryResult)
  | [] => .ok []
  | (k, cats) :: rest =>
      match emitOne finalQ k cats with
      | .ok r =>
          match emitAll finalQ rest with
          | .ok rs => .ok (r :: rs)
          | .error er => .error er
      | .error er => .error er

/-- Embedding of `run_query`: phase 1, the early return on an empty clinical
result, phase 2 over all categories, then emission. -/
def run_query (db : Store) (t : MatchCriteriaTransform) (mcq : MCQ) :
    Except RQErr RunQueryOutput :=
  match execute_clinical_query db t mcq with
  | .error er => .error er
  | .ok (cdocs, cids, issued0) =>
      if cdocs.isEmpty then
        .ok ⟨[], issued0, cdocs, cids, cids, [], mcq⟩
      else
        match processCategories db t cdocs.isEmpty mcq
            ⟨cids, cdocs.map (fun kd => (kd.1, [(t.CLINICAL, CatVal.single kd.2)])), issued0, []⟩ with
        | .error er => .error er
        | .ok (mcq1, st, early) =>
            if early then .ok ⟨[], st.issued, cdocs, cids, st.ids, st.ridSets, mcq1⟩
            else
              match emitAll mcq1 st.ar with
              | .error er => .error er
              | .ok em => .ok ⟨em, st.issued, cdocs, cids, st.ids, st.ridSets, mcq1⟩

/-!
Section: Concrete fixtures used by the claim instances
-/

/-- Genomic HUGO criterion of spec scenario 3. -/
def gHugo : JVal := jobj [("genomic", jobj [("HUGO", .str "BRAF")])]

/-- Genomic VARIANT criterion of spec scenario 3. -/
def gVar : JVal := jobj [("genomic", jobj [("VARIANT", .str "p.V600E")])]

/-- Clinical AGE criterion of spec scenario 3. -/
def cAge : JVal := jobj [("clinical", jobj [("AGE", .str ">=70")])]

/-- The match clause of spec scenario 3: an `or` of an `and` of the two
genomic criteria with the clinical criterion. -/
def clause1 : JVal := jarr [jobj [("or", jarr [jobj [("and", jarr [gHugo, gVar])], cAge])]]

/-- A transformer with the canonical collection names and join field. -/
def mctStd : MatchCriteriaTransform :=
  { CLINICAL := "clinical", primary_collection_unique_field := "_id",
    clinical_projection := [("SAMPLE_ID", .int 1)],
    genomic_projection := [("HUGO_SYMBOL", .int 1)],
    collection_mappings := [("genomic", jobj [("join_field", .str "CLINICAL_ID")])],
    trial_key_mappings := [] }

/-- A store with one clinical document (id 1) and one genomic document
owned by it. -/
def dbOne : Store := fun c _ _ =>
  if c = "clinical" then [jobj [("_id", .int 1)]]
  else if c = "genomic" then [jobj [("_id", .int 10), ("CLINICAL_ID", .int 1)]]
  else []

/-- A store with one clinical document and no genomic documents. -/
def dbClinOnly : Store := fun c _ _ =>
  if c = "clinical" then [jobj [("_id", .int 1)]] else []

/-- A store returning nothing for every query. -/
def dbEmpty : Store := fun _ _ _ => []

/-- A query with one clinical AndClause and one genomic AndClause. -/
def mcqOneGen : MCQ := [("clinical", [[]]), ("genomic", [[("HUGO_SYMBOL", .str "BRAF")]])]

/-- A query with one clinical AndClause and two genomic AndClauses. -/
def mcqTwoGen : MCQ :=
  [("clinical", [[]]), ("genomic", [[("HUGO_SYMBOL", .str "BRAF")], [("HUGO_SYMBOL", .str "KRAS")]])]

/-- A purely clinical query. -/
def mcqClinOnly : MCQ := [("clinical", [[("VITAL_STATUS", .str "alive")]])]

/-- The C6 failing input: a trial whose match clause sits under a `step`
container with no `arm` list in the surrounding dict. -/
def trialStepNoArm : JVal :=
  jobj [("treatment_list", jobj [("step", jarr [jobj [("match", jarr [])]])])]

/-- First clauses of a category (empty when the category is absent). -/
def catClauses (q : MCQ) (c : String) : List AndClause := (assocGet q c).getD []

/-- A trial with one open arm carrying a match clause (the suspension flag is
present, so the extractor completes without mutation). -/
def trialArmOpen : JVal :=
  jobj [("treatment_list",
    jobj [("arm", jarr [jobj [("arm_suspended", .str "n"), ("match", jarr [.str "x"])]])])]

/-- The clause data yielded for `trialArmOpen`. -/
def mcdArmOpen : MatchClauseData :=
  ⟨jarr [.str "x"], [.key "treatment_list", .key "arm", .idx 0, .key "match"], "match",
    jobj [("arm_suspended", .str "n"), ("match", jarr [.str "x"])]⟩

/-- A trial with a step clause whose arm list holds an arm without the
suspension flag: extraction succeeds but writes the default flag back. -/
def trialStepMut : JVal :=
  jobj [("treatment_list",
    jobj [("step", jarr [jobj [("arm", jarr [jobj []]), ("match", jarr [])]])])]

/-- The same trial after extraction: the arm dict gained `arm_suspended`. -/
def trialStepMutAfter : JVal :=
  jobj [("treatment_list",
    jobj [("step", jarr [jobj [("arm", jarr [jobj [("arm_suspended", .str "n")]]),
                               ("match", jarr [])]])])]

/-- The query `mcqOneGen` after `run_query` against `dbClinOnly`: the genomic
AndClause gained the join-field restriction in place. -/
def mcqOneGenMut : MCQ :=
  [("clinical", [[]]),
   ("genomic", [[("HUGO_SYMBOL", .str "BRAF"),
                 ("CLINICAL_ID", jobj [("$in", jarr [.int 1])])]])]

/-- Deletion of one trial-key entry from one category of the transform
configuration. -/
def tkmDeleteKey (tkm : TKM) (g K : String) : TKM :=
  match assocGet tkm g with
  | some m => assocSet tkm g (assocDel m K)
  | none => tkm

/-- A configuration in which the clinical AGE key is marked `ignore`. -/
def mctIgnoreAge : MatchCriteriaTransform :=
  { CLINICAL := "clinical", primary_collection_unique_field := "_id",
    clinical_projection := [], genomic_projection := [], collection_mappings := [],
    trial_key_mappings := [("clinical", [("AGE", jobj [("ignore", .bool true)])])] }

/-- The same configuration with the AGE entry deleted. -/
def mctNoAge : MatchCriteriaTransform :=
  { mctIgnoreAge with
    trial_key_mappings := tkmDeleteKey mctIgnoreAge.trial_key_mappings "clinical" "AGE" }

/-- A match path mentioning the clinical age key. -/
def pathAge : List JVal := [jobj [("clinical", jobj [("age", .str "x")])]]

/-- Pointwise relation between a configuration and the configuration with
the key `K` deleted from category `g`. -/
def TkmRel (g K : String) (m1 m2 : TKM) : Prop :=
  ∀ g1, assocGet m2 g1 =
    if g1 = g then (assocGet m1 g1).map (fun m => assocDel m K) else assocGet m1 g1

/-- Relation between the two runs of the translator: equal outcomes up to
the `TkmRel` relation on the threaded configuration state. -/
def ExTrRel {α : Type} (g K : String) :
    Except TrErr (α × TKM) → Except TrErr (α × TKM) → Prop
  | .error e1, .error e2 => e1 = e2
  | .ok (a1, m1), .ok (a2, m2) => a1 = a2 ∧ TkmRel g K m1 m2
  | _, _ => False

/-!
Section: C1 — nested AND-in-OR
-/

/-- C1 (code bug): for the clause
`or(and(genomic HUGO BRAF, genomic VARIANT p.V600E), clinical AGE >=70)`,
`create_match_tree` followed by `get_match_paths` yields THREE match paths —
the clinical AGE criterion alone, then each genomic criterion alone —
not the two paths the claim states.  The `and` branch re-enqueues its
elements with the OR node as parent (src/matchengine.py:134-136), and every
leaf whose parent is an OR becomes a separate child (src/matchengine.py:
144-147), so the genomic conjunction is split into two disjuncts. -/
theorem claim_C1 :
    (create_match_tree 100 clause1).bind get_match_paths = .ok [[cAge], [gVar], [gHugo]] := rfl

/-!
Section: C3 — no short-circuit when clinical_ids becomes empty mid-phase-2
-/

/-- C3 (code bug): with two genomic AndClauses and a store where the first
genomic clause matches no ids, the running id set is empty after the first
clause (both recorded result-id sets are empty), yet THREE store queries are
issued in total — the second genomic clause is still executed.  The
mid-loop check at src/matchengine.py:300 tests `clinical_docs` (never
modified, always non-empty there) instead of `clinical_ids`, so no
short-circuit happens. -/
theorem claim_C3 :
    (run_query dbClinOnly mctStd mcqTwoGen).map
      (fun o => (o.issued.length, o.resultIdSets, o.emitted.length)) = .ok (3, [[], []], 0) := rfl

/-!
Section: C4 — empty phase 1 short-circuits
-/

/-- C4: when the clinical category is present and the store returns no
documents for the phase-1 clinical query, `run_query` issues exactly one
store query (the clinical one) and emits nothing; the output is the early
return in full. -/
theorem claim_C4 (db : Store) (t : MatchCriteriaTransform) (mcq : MCQ)
    (clauses : List AndClause) (hc : assocGet mcq t.CLINICAL = some clauses)
    (hdb : db t.CLINICAL (clinicalFindQuery clauses) (clinicalFindProjection t) = []) :
    run_query db t mcq =
      .ok ⟨[], [(t.CLINICAL, clinicalFindQuery clauses, clinicalFindProjection t)],
           [], [], [], [], mcq⟩ := by
  unfold run_query execute_clinical_query
  rw [hc]
  simp only [hdb]
  rfl

/-- Witness for C4 at a concrete store and query. -/
theorem claim_C4_witness :
    run_query dbEmpty mctStd mcqOneGen =
      .ok ⟨[], [("clinical", clinicalFindQuery [[]], clinicalFindProjection mctStd)],
           [], [], [], [], mcqOneGen⟩ :=
  claim_C4 dbEmpty mctStd mcqOneGen [[]] rfl rfl

/-!
Section: C6 — step clause with an absent arm list
-/


/-- C6 (code bug): on a step clause with no surrounding `arm` list the
extractor raises AttributeError instead of skipping the clause.  The default
`list(...)` expression at src/matchengine.py:110 builds the list of the
KEYS of the dict — the single string "arm_suspended" — and the subsequent
`arm.setdefault` call on that string fails.  Nothing is yielded. -/
theorem claim_C6 :
    extract_match_clauses_from_trial 32 trialStepNoArm = ([], .error .attributeError) := rfl

/-!
Section: C8 — sample ids / alive-only default
-/


theorem mcqAppend_get_self (q : MCQ) (c : String) (cl : AndClause) :
    catClauses (mcqAppend q c cl) c = catClauses q c ++ [cl] := by
  induction q with
  | nil => simp [catClauses, mcqAppend, assocGet]
  | cons e rest ih =>
      by_cases h : e.1 = c
      · simp [catClauses, mcqAppend, assocGet, h]
      · simpa [catClauses, mcqAppend, assocGet, h] using ih

theorem mcqAppend_get_ne (q : MCQ) (c c1 : String) (cl : AndClause) (h : c1 ≠ c) :
    assocGet (mcqAppend q c cl) c1 = assocGet q c1 := by
  have hcc : ¬ c = c1 := fun hh => h hh.symm
  induction q with
  | nil => simp [mcqAppend, assocGet, hcc]
  | cons e rest ih =>
      by_cases he : e.1 = c
      · simp [mcqAppend, assocGet, he, hcc]
      · simp [mcqAppend, assocGet, he, ih]

/-- C8: with sample ids supplied, `add_sample_ids_to_query` appends exactly
one AndClause restricting SAMPLE_ID to the given ids to the clinical
category; with none it appends exactly the alive-only VITAL_STATUS clause;
in both cases the genomic category is untouched. -/
theorem claim_C8 (q : MCQ) (t : MatchCriteriaTransform) (ids : List String)
    (h : t.CLINICAL = "clinical") :
    catClauses (add_sample_ids_to_query q (some ids) t) "clinical"
        = catClauses q "clinical" ++ [[("SAMPLE_ID", jobj [("$in", jarr (ids.map JVal.str))])]] ∧
    catClauses (add_sample_ids_to_query q none t) "clinical"
        = catClauses q "clinical" ++ [[("VITAL_STATUS", JVal.str "alive")]] ∧
    assocGet (add_sample_ids_to_query q (some ids) t) "genomic" = assocGet q "genomic" ∧
    assocGet (add_sample_ids_to_query q none t) "genomic" = assocGet q "genomic" := by
  refine ⟨?_, ?_, ?_, ?_⟩
  · simpa [add_sample_ids_to_query, h] using mcqAppend_get_self q "clinical" _
  · simpa [add_sample_ids_to_query, h] using mcqAppend_get_self q "clinical" _
  · simpa [add_sample_ids_to_query, h] using mcqAppend_get_ne q "clinical" "genomic" _ (by decide)
  · simpa [add_sample_ids_to_query, h] using mcqAppend_get_ne q "clinical" "genomic" _ (by decide)

/-- Witness for C8 at a concrete query and transformer. -/
theorem claim_C8_witness :
    catClauses (add_sample_ids_to_query mcqOneGen (some ["S1"]) mctStd) "clinical"
        = catClauses mcqOneGen "clinical" ++ [[("SAMPLE_ID", jobj [("$in", jarr [.str "S1"])])]] ∧
    catClauses (add_sample_ids_to_query mcqOneGen none mctStd) "clinical"
        = catClauses mcqOneGen "clinical" ++ [[("VITAL_STATUS", JVal.str "alive")]] ∧
    assocGet (add_sample_ids_to_query mcqOneGen (some ["S1"]) mctStd) "genomic"
        = assocGet mcqOneGen "genomic" ∧
    assocGet (add_sample_ids_to_query mcqOneGen none mctStd) "genomic"
        = assocGet mcqOneGen "genomic" :=
  claim_C8 mcqOneGen mctStd ["S1"] rfl

/-!
Section: C5 — clause level
-/


/-- C5 counterexample: for a clause whose innermost enclosing named container
is `arm`, the emitted level is the string "match" — the parent path ends with
the `match` key itself, which is the first non-integer element of the
reversed path — and "match" is none of `step`, `arm`, `dose`. -/
theorem claim_C5_counterexample :
    (extract_match_clauses_from_trial 32 trialArmOpen).1.map (fun m => m.level) = ["match"] ∧
    ¬ ("match" = "step" ∨ "match" = "arm" ∨ "match" = "dose") :=
  ⟨rfl, by decide⟩

theorem mkYield_head (path : List PathElem) (pk : PathElem) :
    ((path ++ [pk, PathElem.key "match"]).reverse.filterMap PathElem.asKey).head?
      = some "match" := by
  have hrev : (path ++ [pk, PathElem.key "match"]).reverse
      = PathElem.key "match" :: (pk :: path.reverse) := by simp
  rw [hrev]
  simp [PathElem.asKey]

theorem mkYield_level (path : List PathElem) (pk : PathElem) (iv trial : JVal)
    (mcd : MatchClauseData) (tr : JVal)
    (h : mkYield path pk iv trial = .ok (some mcd, tr)) :
    mcd.level = "match" ∧ mcd.parent_path.getLast? = some (.key "match") ∧
      (mcd.parent_path.reverse.filterMap PathElem.asKey).head? = some mcd.level := by
  unfold mkYield at h
  simp only [mkYield_head] at h
  split at h
  · rename_i pv hpv
    have h1 := Except.ok.inj h
    have h2 : some (⟨iv, path ++ [pk, PathElem.key "match"], "match", pv⟩ : MatchClauseData)
        = some mcd := congrArg Prod.fst h1
    have h3 := Option.some.inj h2
    subst h3
    refine ⟨rfl, ?_, ?_⟩
    · have hsplit : path ++ [pk, PathElem.key "match"]
          = (path ++ [pk]) ++ [PathElem.key "match"] := by simp
      show (path ++ [pk, PathElem.key "match"]).getLast? = some (PathElem.key "match")
      rw [hsplit]
      simp
    · exact mkYield_head path pk
  · simp at h

theorem processMatchEntry_level (path : List PathElem) (pk : PathElem) (iv trial : JVal)
    (mcd : MatchClauseData) (tr : JVal)
    (h : processMatchEntry path pk iv trial = .ok (some mcd, tr)) :
    mcd.level = "match" ∧ mcd.parent_path.getLast? = some (.key "match") ∧
      (mcd.parent_path.reverse.filterMap PathElem.asKey).head? = some mcd.level := by
  unfold processMatchEntry at h
  split at h
  · simp at h
  · simp at h
  · exact mkYield_level _ _ _ _ _ _ h

theorem processEntries_level (path : List PathElem) (pk : PathElem) (snap : Nat)
    (es : List (String × JVal)) (st st1 : ExtractSt) (oe : Option ExErr)
    (h : processEntries path pk snap es st = (st1, oe)) (mcd : MatchClauseData)
    (hm : mcd ∈ st1.yields) :
    mcd ∈ st.yields ∨
      (mcd.level = "match" ∧ mcd.parent_path.getLast? = some (.key "match") ∧
        (mcd.parent_path.reverse.filterMap PathElem.asKey).head? = some mcd.level) := by
  induction es generalizing st st1 oe with
  | nil =>
      unfold processEntries at h
      cases h
      exact Or.inl hm
  | cons e rest ih =>
      unfold processEntries at h
      split at h
      · split at h
        · cases h
          exact Or.inl hm
        · rename_i m trial1 hpm
          split at h
          · split at h
            · rcases ih _ _ _ h hm with hin | hp
              · rcases List.mem_append.mp hin with hin1 | hin2
                · exact Or.inl hin1
                · right
                  cases m with
                  | none => simp [Option.toList] at hin2
                  | some m0 =>
                      simp [Option.toList] at hin2
                      subst hin2
                      exact processMatchEntry_level _ _ _ _ _ _ hpm
              · exact Or.inr hp
            · cases h
              rcases List.mem_append.mp hm with hin1 | hin2
              · exact Or.inl hin1
              · right
                cases m with
                | none => simp [Option.toList] at hin2
                | some m0 =>
                    simp [Option.toList] at hin2
                    subst hin2
                    exact processMatchEntry_level _ _ _ _ _ _ hpm
          · cases h
            rcases List.mem_append.mp hm with hin1 | hin2
            · exact Or.inl hin1
            · right
              cases m with
              | none => simp [Option.toList] at hin2
              | some m0 =>
                  simp [Option.toList] at hin2
                  subst hin2
                  exact processMatchEntry_level _ _ _ _ _ _ hpm
      · rcases ih _ _ _ h hm with hin | hp
        · exact Or.inl hin
        · exact Or.inr hp

theorem extractLoop_level (fuel : Nat) (st : ExtractSt) (mcd : MatchClauseData)
    (hm : mcd ∈ (extractLoop fuel st).1) :
    mcd ∈ st.yields ∨
      (mcd.level = "match" ∧ mcd.parent_path.getLast? = some (.key "match") ∧
        (mcd.parent_path.reverse.filterMap PathElem.asKey).head? = some mcd.level) := by
  induction fuel generalizing st with
  | zero =>
      unfold extractLoop at hm
      exact Or.inl hm
  | succ n ih =>
      unfold extractLoop at hm
      split at hm
      · exact Or.inl hm
      · rename_i path pk qrest
        split at hm
        · split at hm
          · split at hm
            · rename_i st2 hpe
              rcases ih _ hm with hin | hp
              · exact processEntries_level _ _ _ _ _ _ _ hpe mcd hin
              · exact Or.inr hp
            · rename_i st2 er hpe
              exact processEntries_level _ _ _ _ _ _ _ hpe mcd hm
          · split at hm
            · exact (ih _ hm : _)
            · exact (ih _ hm : _)
        · exact Or.inl hm

/-- C5 (amended): every `MatchClauseData` the extractor yields has a level
that is indeed the first non-integer element of the reversed parent path,
but since the parent path always ends with the literal key "match", that
element — and hence the level — is always the string "match", never the
enclosing `step`, `arm` or `dose` container name. -/
theorem claim_C5 (fuel : Nat) (trial : JVal) (mcd : MatchClauseData)
    (hm : mcd ∈ (extract_match_clauses_from_trial fuel trial).1) :
    mcd.level = "match" ∧ mcd.parent_path.getLast? = some (.key "match") ∧
      (mcd.parent_path.reverse.filterMap PathElem.asKey).head? = some mcd.level := by
  unfold extract_match_clauses_from_trial at hm
  split at hm
  · rcases extractLoop_level _ _ _ hm with hin | hp
    · simp at hin
    · exact hp
  · simp at hm


/-- Witness for the amended C5 at a concrete trial. -/
theorem claim_C5_witness :
    mcdArmOpen.level = "match" ∧ mcdArmOpen.parent_path.getLast? = some (.key "match") ∧
      (mcdArmOpen.parent_path.reverse.filterMap PathElem.asKey).head? = some mcdArmOpen.level :=
  claim_C5 32 trialArmOpen mcdArmOpen (by decide)

/-!
Section: C9 — stages mutate their inputs
-/




/-- C9 counterexample: the extractor returns a trial different from its
input (a default suspension flag was inserted), and `run_query` finishes
with a multi-collection query different from its input (the join-field
restriction was written into the genomic AndClause) — so neither stage
leaves its consumed entity unchanged. -/
theorem claim_C9_counterexample :
    (extract_match_clauses_from_trial 32 trialStepMut).2 = .ok trialStepMutAfter ∧
    trialStepMutAfter ≠ trialStepMut ∧
    (run_query dbClinOnly mctStd mcqOneGen).map (fun o => o.finalQuery) = .ok mcqOneGenMut ∧
    mcqOneGenMut ≠ mcqOneGen :=
  ⟨rfl, by decide, rfl, by decide⟩

theorem processCategories_frame (db : Store) (t : MatchCriteriaTransform) (ce : Bool)
    (mcq : MCQ) (st : P2St) (mcq1 : MCQ) (st1 : P2St) (e : Bool)
    (h : processCategories db t ce mcq st = .ok (mcq1, st1, e)) :
    List.Forall₂ (fun a b => a.1 = b.1 ∧ (a.1 = t.CLINICAL ∧ ce = false → a.2 = b.2))
      mcq mcq1 := by
  induction mcq generalizing st mcq1 st1 e with
  | nil =>
      unfold processCategories at h
      cases h
      exact List.Forall₂.nil
  | cons gq rest ih =>
      obtain ⟨g, queries⟩ := gq
      unfold processCategories at h
      by_cases hcond : g = t.CLINICAL ∧ ce = false
      · rw [if_pos hcond] at h
        rcases hrec : processCategories db t ce rest st with er | ⟨rest1, st2, e2⟩ <;>
          rw [hrec] at h
        · simp at h
        · cases h
          exact List.Forall₂.cons ⟨rfl, fun _ => rfl⟩ (ih _ _ _ _ hrec)
      · rw [if_neg hcond] at h
        rcases hmap : assocGet t.collection_mappings g with _ | jfv <;> rw [hmap] at h
        · simp at h
        · dsimp only at h
          rcases hjf : objLookup jfv "join_field" with _ | jv <;> rw [hjf] at h
          · simp at h
          · cases jv with
            | str jf =>
                dsimp only at h
                rcases hpc : processClauses db g jf
                    (jobj (dUpdateList [(jf, JVal.int 1)]
                      (if g = "genomic" then t.genomic_projection else [])))
                    ce queries st with er | ⟨queries1, st2, e2⟩ <;> rw [hpc] at h
                · simp at h
                · cases e2 with
                  | true =>
                      cases h
                      refine List.Forall₂.cons ⟨rfl, fun hc => absurd hc hcond⟩ ?_
                      exact List.forall₂_same.mpr (fun a _ => ⟨rfl, fun _ => rfl⟩)
                  | false =>
                      dsimp only at h
                      rcases hrec : processCategories db t ce rest st2 with er | ⟨rest1, st3, e3⟩ <;>
                        rw [hrec] at h
                      · simp at h
                      · cases h
                        exact List.Forall₂.cons ⟨rfl, fun hc => absurd hc hcond⟩
                          (ih _ _ _ _ hrec)
            | int _ => simp at h
            | bool _ => simp at h
            | null => simp at h
            | arrNil => simp at h
            | arrCons _ _ => simp at h
            | objNil => simp at h
            | objCons _ _ _ => simp at h

/-- C9 (amended): the pipeline stages do mutate what they consume — the
extractor writes default suspension flags into the trial and `run_query`
writes the join-field restriction into every executed AndClause — but
`run_query` preserves the category structure of the query and leaves every
AndClause of the clinical category unchanged: the final query has the same
category names in the same order, and clinical entries are untouched. -/
theorem claim_C9 (db : Store) (t : MatchCriteriaTransform) (mcq : MCQ)
    (out : RunQueryOutput) (hok : run_query db t mcq = .ok out) :
    List.Forall₂ (fun a b => a.1 = b.1 ∧ (a.1 = t.CLINICAL → a.2 = b.2))
      mcq out.finalQuery := by
  unfold run_query at hok
  split at hok
  · simp at hok
  · rename_i cdocs cids issued0 hexec
    split at hok
    · cases hok
      exact List.forall₂_same.mpr (fun a _ => ⟨rfl, fun _ => rfl⟩)
    · rename_i hemp
      have hce : cdocs.isEmpty = false := by
        simpa using hemp
      split at hok
      · simp at hok
      · rename_i mcq1 st2 early hpc
        have hframe := processCategories_frame db t cdocs.isEmpty mcq _ mcq1 st2 early hpc
        have hgoal : List.Forall₂
            (fun a b => a.1 = b.1 ∧ (a.1 = t.CLINICAL → a.2 = b.2)) mcq mcq1 := by
          refine hframe.imp ?_
          intro a b hab
          exact ⟨hab.1, fun hcl => hab.2 ⟨hcl, hce⟩⟩
        split at hok
        · cases hok
          exact hgoal
        · split at hok
          · simp at hok
          · cases hok
            exact hgoal

/-- Witness for the amended C9 at a concrete store and query. -/
theorem claim_C9_witness :
    List.Forall₂ (fun a b => a.1 = b.1 ∧ (a.1 = mctStd.CLINICAL → a.2 = b.2))
      mcqOneGen ((run_query dbClinOnly mctStd mcqOneGen).toOption.getD default).finalQuery :=
  claim_C9 dbClinOnly mctStd mcqOneGen _ rfl

/-!
Section: C10 — purely clinical paths
-/

theorem processCategories_clinical (db : Store) (t : MatchCriteriaTransform)
    (mcq : MCQ) (st : P2St) (hall : ∀ e ∈ mcq, e.1 = t.CLINICAL) :
    processCategories db t false mcq st = .ok (mcq, st, false) := by
  induction mcq generalizing st with
  | nil => rfl
  | cons gq rest ih =>
      obtain ⟨g, queries⟩ := gq
      have hg : g = t.CLINICAL := hall (g, queries) (List.mem_cons_self _ _)
      unfold processCategories
      rw [if_pos ⟨hg, rfl⟩, ih st (fun e he => hall e (List.mem_cons_of_mem _ he))]

theorem emitAll_clinical (fq : MCQ) (cdocs : List (JVal × JVal)) :
    emitAll fq (cdocs.map (fun kd => (kd.1, [("clinical", CatVal.single kd.2)]))) =
      .ok (cdocs.map (fun kd => ⟨fq, kd.1, CatVal.single kd.2, []⟩)) := by
  induction cdocs with
  | nil => rfl
  | cons kd rest ih =>
      simp only [List.map_cons]
      unfold emitAll
      rw [ih]
      rfl

/-- C10: for a multi-collection query whose categories are all clinical (a
purely clinical path), `run_query` emits exactly one `RawQueryResult` per
phase-1 clinical document, carrying that document and an empty genomic
document list, and the query itself is left unchanged. -/
theorem claim_C10 (db : Store) (t : MatchCriteriaTransform) (mcq : MCQ)
    (out : RunQueryOutput) (hclin : t.CLINICAL = "clinical")
    (hcats : ∀ e ∈ mcq, e.1 = "clinical") (hok : run_query db t mcq = .ok out) :
    out.emitted = out.phase1Docs.map (fun kd => ⟨out.finalQuery, kd.1, CatVal.single kd.2, []⟩) ∧
      out.finalQuery = mcq := by
  have hall : ∀ e ∈ mcq, e.1 = t.CLINICAL := by
    intro e he
    rw [hclin]
    exact hcats e he
  unfold run_query at hok
  rcases hexec : execute_clinical_query db t mcq with er | ⟨cdocs, cids, issued0⟩ <;>
    rw [hexec] at hok
  · simp at hok
  · dsimp only at hok
    cases hemp : cdocs.isEmpty with
    | true =>
        rw [hemp] at hok
        simp only [if_true] at hok
        cases hok
        have : cdocs = [] := List.isEmpty_iff.mp hemp
        subst this
        exact ⟨rfl, rfl⟩
    | false =>
        rw [hemp] at hok
        simp only [Bool.false_eq_true, if_false] at hok
        rw [processCategories_clinical db t mcq _ hall] at hok
        dsimp only at hok
        rw [hclin, emitAll_clinical] at hok
        cases hok
        exact ⟨rfl, rfl⟩

/-- Witness for C10 at a concrete store and purely clinical query. -/
theorem claim_C10_witness :
    ((run_query dbOne mctStd mcqClinOnly).toOption.getD default).emitted
        = ((run_query dbOne mctStd mcqClinOnly).toOption.getD default).phase1Docs.map
            (fun kd => ⟨((run_query dbOne mctStd mcqClinOnly).toOption.getD default).finalQuery,
                        kd.1, CatVal.single kd.2, []⟩) ∧
      ((run_query dbOne mctStd mcqClinOnly).toOption.getD default).finalQuery = mcqClinOnly :=
  claim_C10 dbOne mctStd mcqClinOnly _ rfl (by decide) rfl

/-!
Section: C2 — final clinical ids are the intersection
-/

theorem execute_clinical_query_ids (db : Store) (t : MatchCriteriaTransform) (mcq : MCQ)
    (a : List (JVal × JVal)) (b : List JVal) (c : List (String × JVal × JVal))
    (h : execute_clinical_query db t mcq = .ok (a, b, c)) : b = a.map (fun kd => kd.1) := by
  unfold execute_clinical_query at h
  split at h
  · cases h
    rfl
  · dsimp only at h
    split at h
    · cases h
      rfl
    · simp at h

theorem map_fst_filter {α β : Type} (p : α → Bool) (l : List (α × β)) :
    (l.filter (fun e => p e.1)).map (fun e => e.1) = (l.map (fun e => e.1)).filter p := by
  induction l with
  | nil => rfl
  | cons x xs ih =>
      by_cases hx : p x.1
      · simp [hx, ih]
      · simp [hx, ih]

theorem pruneAR_keys (rids ids : List JVal) (ar : AllResults)
    (hkeys : ar.map (fun e => e.1) = ids) :
    (pruneAR rids ids ar).map (fun e => e.1) = survivors rids ids := by
  unfold pruneAR survivors
  have h1 := map_fst_filter
    (fun a => decide (a ∉ ids.filter (fun x => decide (x ∉ rids)))) ar
  rw [h1, hkeys]
  refine List.filter_congr ?_
  intro x hx
  simp [List.mem_filter, hx]

theorem arAdd_keys (ar : AllResults) (k : JVal) (g : String) (did d : JVal)
    (ar1 : AllResults) (h : arAdd ar k g did d = .ok ar1)
    (hk : k ∈ ar.map (fun e => e.1)) :
    ar1.map (fun e => e.1) = ar.map (fun e => e.1) := by
  induction ar generalizing ar1 with
  | nil => simp at hk
  | cons e rest ih =>
      unfold arAdd at h
      split at h
      · rename_i hk1
        split at h
        · cases h
          rfl
        · cases h
          rfl
        · simp at h
      · rename_i hk1
        split at h
        · rename_i rest1 hrec
          cases h
          have hkr : k ∈ rest.map (fun e => e.1) := by
            rcases List.mem_map.mp hk with ⟨e2, he2, hke⟩
            rcases List.mem_cons.mp he2 with rfl | he2r
            · exact absurd hke hk1
            · exact List.mem_map.mpr ⟨e2, he2r, hke⟩
          simp [ih rest1 hrec hkr]
        · simp at h

theorem addDocs_keys (g jf : String) (ids : List JVal) (ds : List JVal)
    (ar ar1 : AllResults) (h : addDocs g jf ids ds ar = .ok ar1)
    (hsub : ∀ x ∈ ids, x ∈ ar.map (fun e => e.1)) :
    ar1.map (fun e => e.1) = ar.map (fun e => e.1) := by
  induction ds generalizing ar ar1 with
  | nil =>
      unfold addDocs at h
      cases h
      rfl
  | cons d rest ih =>
      unfold addDocs at h
      split at h
      · simp at h
      · rename_i jv hjv
        split at h
        · split at h
          · simp at h
          · rename_i hmem _ did hdid
            split at h
            · rename_i ar2 hadd
              have hkeys2 := arAdd_keys ar jv g did d ar2 hadd (hsub jv hmem)
              have := ih ar2 ar1 h (fun x hx => hkeys2 ▸ hsub x hx)
              rw [this, hkeys2]
            · simp at h
        · exact ih ar ar1 h hsub

theorem survivors_char (rids ids : List JVal) (x : JVal) :
    x ∈ survivors rids ids ↔ (x ∈ ids ∧ x ∈ rids) := by
  simp [survivors, List.mem_filter]

theorem processClauses_inv (db : Store) (g jf : String) (proj : JVal)
    (qs : List AndClause) :
    ∀ (st : P2St) (qs1 : List AndClause) (st1 : P2St) (e : Bool) (S0 : List JVal),
    processClauses db g jf proj false qs st = .ok (qs1, st1, e) →
    st.ar.map (fun a => a.1) = st.ids →
    (∀ x, x ∈ st.ids ↔ (x ∈ S0 ∧ ∀ R ∈ st.ridSets, x ∈ R)) →
    e = false ∧ st1.ar.map (fun a => a.1) = st1.ids ∧
      (∀ x, x ∈ st1.ids ↔ (x ∈ S0 ∧ ∀ R ∈ st1.ridSets, x ∈ R)) := by
  induction qs with
  | nil =>
      intro st qs1 st1 e S0 h hkeys hchar
      unfold processClauses at h
      cases h
      exact ⟨rfl, hkeys, hchar⟩
  | cons q rest ih =>
      intro st qs1 st1 e S0 h hkeys hchar
      unfold processClauses at h
      rcases hrids : resultIdsOf jf (db g (jobj (clauseQuery jf st.ids q)) proj)
        with er | rids <;> rw [hrids] at h
      · simp at h
      · dsimp only at h
        simp only [Bool.false_eq_true, if_false] at h
        rcases hadd : addDocs g jf (survivors rids st.ids)
            (db g (jobj (clauseQuery jf st.ids q)) proj)
            (pruneAR rids st.ids st.ar) with er | ar2 <;> rw [hadd] at h
        · simp at h
        · dsimp only at h
          rcases hrec : processClauses db g jf proj false rest
              ⟨survivors rids st.ids, ar2,
               st.issued ++ [(g, jobj (clauseQuery jf st.ids q), proj)],
               st.ridSets ++ [rids]⟩ with er | ⟨rest1, st2, e2⟩ <;> rw [hrec] at h
          · simp at h
          · cases h
            have hprune := pruneAR_keys rids st.ids st.ar hkeys
            have hkeys2 : ar2.map (fun a => a.1) = survivors rids st.ids := by
              rw [addDocs_keys g jf (survivors rids st.ids) _ _ ar2 hadd
                (fun x hx => hprune ▸ hx), hprune]
            have hchar2 : ∀ x, x ∈ survivors rids st.ids ↔
                (x ∈ S0 ∧ ∀ R ∈ st.ridSets ++ [rids], x ∈ R) := by
              intro x
              rw [survivors_char, hchar x]
              constructor
              · rintro ⟨⟨hs0, hall⟩, hr⟩
                refine ⟨hs0, ?_⟩
                intro R hR
                rcases List.mem_append.mp hR with hR1 | hR2
                · exact hall R hR1
                · rw [List.mem_singleton.mp hR2]
                  exact hr
              · rintro ⟨hs0, hall⟩
                exact ⟨⟨hs0, fun R hR => hall R (List.mem_append_left _ hR)⟩,
                       hall rids (List.mem_append_right _ (List.mem_singleton.mpr rfl))⟩
            exact ih _ _ _ _ S0 hrec hkeys2 hchar2

theorem processCategories_inv (db : Store) (t : MatchCriteriaTransform)
    (mcq : MCQ) :
    ∀ (st : P2St) (mcq1 : MCQ) (st1 : P2St) (e : Bool) (S0 : List JVal),
    processCategories db t false mcq st = .ok (mcq1, st1, e) →
    st.ar.map (fun a => a.1) = st.ids →
    (∀ x, x ∈ st.ids ↔ (x ∈ S0 ∧ ∀ R ∈ st.ridSets, x ∈ R)) →
    e = false ∧ st1.ar.map (fun a => a.1) = st1.ids ∧
      (∀ x, x ∈ st1.ids ↔ (x ∈ S0 ∧ ∀ R ∈ st1.ridSets, x ∈ R)) := by
  induction mcq with
  | nil =>
      intro st mcq1 st1 e S0 h hkeys hchar
      unfold processCategories at h
      cases h
      exact ⟨rfl, hkeys, hchar⟩
  | cons gq rest ih =>
      intro st mcq1 st1 e S0 h hkeys hchar
      obtain ⟨g, queries⟩ := gq
      unfold processCategories at h
      by_cases hcond : g = t.CLINICAL ∧ (false : Bool) = false
      · rw [if_pos hcond] at h
        rcases hrec : processCategories db t false rest st with er | ⟨rest1, st2, e2⟩ <;>
          rw [hrec] at h
        · simp at h
        · cases h
          exact ih _ _ _ _ S0 hrec hkeys hchar
      · rw [if_neg hcond] at h
        rcases hmap : assocGet t.collection_mappings g with _ | jfv <;> rw [hmap] at h
        · simp at h
        · dsimp only at h
          rcases hjf : objLookup jfv "join_field" with _ | jv <;> rw [hjf] at h
          · simp at h
          · cases jv with
            | str jf =>
                dsimp only at h
                rcases hpc : processClauses db g jf
                    (jobj (dUpdateList [(jf, JVal.int 1)]
                      (if g = "genomic" then t.genomic_projection else [])))
                    false queries st with er | ⟨queries1, st2, e2⟩ <;> rw [hpc] at h
                · simp at h
                · have hinv := processClauses_inv db g jf _ queries st queries1 st2 e2 S0
                    hpc hkeys hchar
                  rcases hinv with ⟨he2, hkeys2, hchar2⟩
                  subst he2
                  dsimp only at h
                  rcases hrec : processCategories db t false rest st2
                    with er | ⟨rest1, st3, e3⟩ <;> rw [hrec] at h
                  · simp at h
                  · cases h
                    exact ih _ _ _ _ S0 hrec hkeys2 hchar2
            | int _ => simp at h
            | bool _ => simp at h
            | null => simp at h
            | arrNil => simp at h
            | arrCons _ _ => simp at h
            | objNil => simp at h
            | objCons _ _ _ => simp at h

theorem emitOne_id (fq : MCQ) (k : JVal) (cats : List (String × CatVal))
    (r : RawQueryResult) (h : emitOne fq k cats = .ok r) : r.clinical_id = k := by
  unfold emitOne at h
  split at h
  · cases h
    rfl
  · split at h
    · cases h
      rfl
    · simp at h

theorem emitAll_ids (fq : MCQ) (ar : AllResults) (l : List RawQueryResult)
    (h : emitAll fq ar = .ok l) :
    l.map (fun r => r.clinical_id) = ar.map (fun e => e.1) := by
  induction ar generalizing l with
  | nil =>
      unfold emitAll at h
      cases h
      rfl
  | cons e rest ih =>
      unfold emitAll at h
      split at h
      · rename_i r hr
        split at h
        · rename_i rs hrs
          cases h
          simp [emitOne_id fq e.1 e.2 r hr, ih rs hrs]
        · simp at h
      · simp at h

/-- C2: whenever `run_query` succeeds on a query whose categories are
clinical and genomic only, the final clinical id set is exactly the phase-1
clinical id set intersected with every recorded per-clause join-field value
set (the sets returned by the genomic AndClauses), and every emitted result
carries a clinical id inside that intersection. -/
theorem claim_C2 (db : Store) (t : MatchCriteriaTransform) (mcq : MCQ)
    (out : RunQueryOutput) (hclin : t.CLINICAL = "clinical")
    (hcats : ∀ c ∈ mcq.map (fun e => e.1), c = "clinical" ∨ c = "genomic")
    (hok : run_query db t mcq = .ok out) :
    (∀ x, x ∈ out.finalIds ↔ (x ∈ out.phase1Ids ∧ ∀ R ∈ out.resultIdSets, x ∈ R)) ∧
      (∀ r ∈ out.emitted, r.clinical_id ∈ out.finalIds) := by
  unfold run_query at hok
  rcases hexec : execute_clinical_query db t mcq with er | ⟨cdocs, cids, issued0⟩ <;>
    rw [hexec] at hok
  · simp at hok
  · have hcids := execute_clinical_query_ids db t mcq cdocs cids issued0 hexec
    dsimp only at hok
    cases hemp : cdocs.isEmpty with
    | true =>
        rw [hemp] at hok
        simp only [if_true] at hok
        cases hok
        exact ⟨fun x => by simp, fun r hr => by simp at hr⟩
    | false =>
        rw [hemp] at hok
        simp only [Bool.false_eq_true, if_false] at hok
        rcases hpc : processCategories db t false mcq
            ⟨cids, cdocs.map (fun kd => (kd.1, [(t.CLINICAL, CatVal.single kd.2)])), issued0, []⟩
          with er | ⟨mcq1, st2, early⟩ <;> rw [hpc] at hok
        · simp at hok
        · have hkeys0 : (cdocs.map (fun kd =>
              ((kd.1 : JVal), [(t.CLINICAL, CatVal.single kd.2)]))).map (fun a => a.1) = cids := by
            rw [hcids]
            simp
          have hchar0 : ∀ x, x ∈ cids ↔ (x ∈ cids ∧ ∀ R ∈ ([] : List (List JVal)), x ∈ R) := by
            intro x
            simp
          have hinv := processCategories_inv db t mcq _ mcq1 st2 early cids hpc hkeys0 hchar0
          rcases hinv with ⟨hearly, hkeys, hchar⟩
          subst hearly
          dsimp only at hok
          rcases hemit : emitAll mcq1 st2.ar with er | em <;> rw [hemit] at hok
          · simp at hok
          · cases hok
            refine ⟨hchar, ?_⟩
            intro r hr
            have hmapped : r.clinical_id ∈ em.map (fun r => r.clinical_id) :=
              List.mem_map.mpr ⟨r, hr, rfl⟩
            rw [emitAll_ids mcq1 st2.ar em hemit, hkeys] at hmapped
            exact hmapped

/-- Witness for C2 at a concrete store and query with one genomic clause. -/
theorem claim_C2_witness :
    (∀ x, x ∈ ((run_query dbOne mctStd mcqOneGen).toOption.getD default).finalIds ↔
        (x ∈ ((run_query dbOne mctStd mcqOneGen).toOption.getD default).phase1Ids ∧
         ∀ R ∈ ((run_query dbOne mctStd mcqOneGen).toOption.getD default).resultIdSets, x ∈ R)) ∧
      (∀ r ∈ ((run_query dbOne mctStd mcqOneGen).toOption.getD default).emitted,
        r.clinical_id ∈ ((run_query dbOne mctStd mcqOneGen).toOption.getD default).finalIds) :=
  claim_C2 dbOne mctStd mcqOneGen _ rfl (by decide) rfl

/-!
Section: C7 — deleting an ignored trial-key entry
-/





/-- C7 counterexample: deleting the `ignore: true` AGE entry changes the
translated query on a path that mentions the key — with the entry present
the key contributes nothing, without it the key is routed through the
default `nomap` transform and contributes the predicate `AGE = x`. -/
theorem claim_C7_counterexample :
    (translate_match_path mctIgnoreAge registry0 [] pathAge).map Prod.fst
        = .ok [("clinical", [[]])] ∧
      (translate_match_path mctNoAge registry0 [] pathAge).map Prod.fst
        = .ok [("clinical", [[("AGE", JVal.str "x")]])] ∧
      ([("clinical", [[]])] : MCQ) ≠ [("clinical", [[("AGE", JVal.str "x")]])] :=
  ⟨rfl, rfl, by decide⟩

theorem assocGet_set_self {κ α : Type} [DecidableEq κ] (l : List (κ × α)) (k : κ) (v : α) :
    assocGet (assocSet l k v) k = some v := by
  induction l with
  | nil => simp [assocSet, assocGet]
  | cons e r ih =>
      by_cases he : e.1 = k
      · simp [assocSet, assocGet, he]
      · simp [assocSet, assocGet, he, ih]

theorem assocGet_set_ne {κ α : Type} [DecidableEq κ] (l : List (κ × α)) (k k1 : κ) (v : α)
    (h : ¬ k1 = k) : assocGet (assocSet l k v) k1 = assocGet l k1 := by
  have hkk : ¬ k = k1 := fun hh => h hh.symm
  induction l with
  | nil => simp [assocSet, assocGet, hkk]
  | cons e r ih =>
      by_cases he : e.1 = k
      · simp [assocSet, assocGet, he, hkk]
      · simp [assocSet, assocGet, he, ih]

theorem assocGet_del_ne {κ α : Type} [DecidableEq κ] (l : List (κ × α)) (k k1 : κ)
    (h : ¬ k1 = k) : assocGet (assocDel l k) k1 = assocGet l k1 := by
  have hkk : ¬ k = k1 := fun hh => h hh.symm
  induction l with
  | nil => simp [assocDel, assocGet]
  | cons e r ih =>
      by_cases he : e.1 = k
      · simp [assocDel, assocGet, he, hkk]
      · simp [assocDel, assocGet, he, ih]

theorem assocDel_set_comm {κ α : Type} [DecidableEq κ] (l : List (κ × α)) (k k1 : κ) (v : α)
    (h : ¬ k1 = k) : assocDel (assocSet l k1 v) k = assocSet (assocDel l k) k1 v := by
  have hkk : ¬ k = k1 := fun hh => h hh.symm
  induction l with
  | nil => simp [assocSet, assocDel, h]
  | cons e r ih =>
      by_cases he1 : e.1 = k1
      · simp [assocSet, assocDel, he1, h, hkk]
      · by_cases he2 : e.1 = k
        · simp [assocSet, assocDel, he1, he2, h, hkk]
        · simp [assocSet, assocDel, he1, he2, ih]

theorem assocDel_append_single {κ α : Type} [DecidableEq κ] (l : List (κ × α)) (k k1 : κ)
    (v : α) (h : ¬ k1 = k) :
    assocDel (l ++ [(k1, v)]) k = assocDel l k ++ [(k1, v)] := by
  induction l with
  | nil => simp [assocDel, h]
  | cons e r ih =>
      by_cases he : e.1 = k
      · simp [assocDel, he]
      · simp [assocDel, he, ih]

theorem assocSetdefault_del (l : List (String × JVal)) (K ku : String) (d : JVal)
    (h : ¬ ku = K) :
    assocSetdefault (assocDel l K) ku d
      = ((assocSetdefault l ku d).1, assocDel (assocSetdefault l ku d).2 K) := by
  unfold assocSetdefault
  rw [assocGet_del_ne l K ku h]
  cases hv : assocGet l ku with
  | some v => simp
  | none => simp [assocDel_append_single l K ku d h]


theorem TkmRel_init (tkm : TKM) (g K : String) : TkmRel g K tkm (tkmDeleteKey tkm g K) := by
  intro g1
  unfold tkmDeleteKey
  cases hm : assocGet tkm g with
  | some m =>
      by_cases hg1 : g1 = g
      · subst hg1
        rw [assocGet_set_self, hm, if_pos rfl]
        rfl
      · rw [assocGet_set_ne tkm g g1 _ hg1, if_neg hg1]
  | none =>
      by_cases hg1 : g1 = g
      · subst hg1
        rw [hm, if_pos rfl]
        rfl
      · rw [if_neg hg1]

theorem TkmRel_set (g K : String) (m1 m2 : TKM) (hrel : TkmRel g K m1 m2) (g1 : String)
    (X1 X2 : List (String × JVal)) (hx1 : g1 = g → X2 = assocDel X1 K)
    (hx2 : ¬ g1 = g → X2 = X1) :
    TkmRel g K (assocSet m1 g1 X1) (assocSet m2 g1 X2) := by
  intro g2
  by_cases h2 : g2 = g1
  · subst h2
    rw [assocGet_set_self, assocGet_set_self]
    by_cases hg : g2 = g
    · rw [if_pos hg, hx1 hg]
      rfl
    · rw [if_neg hg, hx2 hg]
  · rw [assocGet_set_ne m2 g1 g2 _ h2, assocGet_set_ne m1 g1 g2 _ h2]
    exact hrel g2


theorem ExTrRel_error {α : Type} (g K : String) (r1 r2 : Except TrErr (α × TKM))
    (e : TrErr) (h : ExTrRel g K r1 r2) (he : r1 = .error e) : r2 = .error e := by
  subst he
  cases r2 with
  | error e2 =>
      have : e = e2 := h
      rw [this]
  | ok p => exact absurd h (by cases p; exact fun hh => hh)

theorem ExTrRel_ok {α : Type} (g K : String) (r1 r2 : Except TrErr (α × TKM))
    (a : α) (m1 : TKM) (h : ExTrRel g K r1 r2) (ho : r1 = .ok (a, m1)) :
    ∃ m2, r2 = .ok (a, m2) ∧ TkmRel g K m1 m2 := by
  subst ho
  cases r2 with
  | error e2 => exact absurd h (fun hh => hh)
  | ok p =>
      obtain ⟨a2, m2⟩ := p
      have h2 : a = a2 ∧ TkmRel g K m1 m2 := h
      exact ⟨m2, by rw [h2.1], h2.2⟩

theorem translateKeyCont_rel (t : MatchCriteriaTransform) (X : TKM) (reg : Registry)
    (hreg : ∀ n fn, reg n = some fn → ∀ tkm1 args,
      fn { t with trial_key_mappings := tkm1 } args = fn t args)
    (pp : List PathElem) (gc tk : String) (tv : JVal) (aq : AndClause)
    (m1 m2 : TKM) (cat1 cat2 : List (String × JVal)) (ku : String)
    (settings : List (String × JVal)) (g K : String)
    (hrel : TkmRel g K m1 m2)
    (hc1 : gc = g → cat2 = assocDel cat1 K ∧ ¬ ku = K)
    (hc2 : ¬ gc = g → cat2 = cat1) :
    ExTrRel g K (translateKeyCont t reg pp gc tk tv aq m1 cat1 ku settings)
      (translateKeyCont { t with trial_key_mappings := X } reg pp gc tk tv aq m2 cat2 ku settings) := by
  unfold translateKeyCont
  cases hsv : (assocSetdefault settings "sample_value" (JVal.str "nomap")).1 with
  | str name =>
      dsimp only
      cases hfn : reg name with
      | none => exact rfl
      | some fn =>
          dsimp only
          refine ⟨?_, ?_⟩
          · rw [hreg name fn hfn X]
          · refine TkmRel_set g K m1 m2 hrel gc _ _ ?_ ?_
            · intro hg
              rcases hc1 hg with ⟨hcat, hku⟩
              rw [hcat, assocDel_set_comm _ K ku _ hku]
            · intro hg
              rw [hc2 hg]
  | int n => exact rfl
  | bool b => exact rfl
  | null => exact rfl
  | arrNil => exact rfl
  | arrCons h1 t1 => exact rfl
  | objNil => exact rfl
  | objCons k1 v1 r1 => exact rfl

theorem translateKey_rel (t : MatchCriteriaTransform) (X : TKM) (reg : Registry)
    (hreg : ∀ n fn, reg n = some fn → ∀ tkm1 args,
      fn { t with trial_key_mappings := tkm1 } args = fn t args)
    (pp : List PathElem) (gc tk : String) (tv : JVal) (aq : AndClause)
    (m1 m2 : TKM) (g K : String) (hrel : TkmRel g K m1 m2)
    (hk : gc = g → ¬ pyUpper tk = K) :
    ExTrRel g K (translateKey t reg pp gc tk tv aq m1)
      (translateKey { t with trial_key_mappings := X } reg pp gc tk tv aq m2) := by
  unfold translateKey
  have hget := hrel gc
  by_cases hgc : gc = g
  · rw [if_pos hgc] at hget
    have hku : ¬ pyUpper tk = K := hk hgc
    cases hcm : assocGet m1 gc with
    | none =>
        rw [hcm] at hget
        have hget2 : assocGet m2 gc = none := by simpa using hget
        rw [hget2]
        exact rfl
    | some cat1 =>
        rw [hcm] at hget
        have hget2 : assocGet m2 gc = some (assocDel cat1 K) := by simpa using hget
        rw [hget2]
        dsimp only
        rw [assocSetdefault_del cat1 K (pyUpper tk) JVal.objNil hku]
        dsimp only
        cases hse : (assocSetdefault cat1 (pyUpper tk) JVal.objNil).1.entries? with
        | none => exact rfl
        | some settings =>
            dsimp only
            cases hig : assocGet settings "ignore" with
            | some iv =>
                dsimp only
                by_cases htr : pyTruthy iv = true
                · rw [if_pos htr, if_pos htr]
                  refine ⟨rfl, ?_⟩
                  exact TkmRel_set g K m1 m2 hrel gc _ _ (fun _ => rfl)
                    (fun hn => absurd hgc hn)
                · rw [if_neg htr, if_neg htr]
                  exact translateKeyCont_rel t X reg hreg pp gc tk tv aq
                    (assocSet m1 gc (assocSetdefault cat1 (pyUpper tk) JVal.objNil).2)
                    (assocSet m2 gc (assocDel (assocSetdefault cat1 (pyUpper tk) JVal.objNil).2 K))
                    (assocSetdefault cat1 (pyUpper tk) JVal.objNil).2
                    (assocDel (assocSetdefault cat1 (pyUpper tk) JVal.objNil).2 K)
                    (pyUpper tk) settings g K
                    (TkmRel_set g K m1 m2 hrel gc _ _ (fun _ => rfl) (fun hn => absurd hgc hn))
                    (fun _ => ⟨rfl, hku⟩) (fun hn => absurd hgc hn)
            | none =>
                dsimp only
                exact translateKeyCont_rel t X reg hreg pp gc tk tv aq
                  (assocSet m1 gc (assocSetdefault cat1 (pyUpper tk) JVal.objNil).2)
                  (assocSet m2 gc (assocDel (assocSetdefault cat1 (pyUpper tk) JVal.objNil).2 K))
                  (assocSetdefault cat1 (pyUpper tk) JVal.objNil).2
                  (assocDel (assocSetdefault cat1 (pyUpper tk) JVal.objNil).2 K)
                  (pyUpper tk) settings g K
                  (TkmRel_set g K m1 m2 hrel gc _ _ (fun _ => rfl) (fun hn => absurd hgc hn))
                  (fun _ => ⟨rfl, hku⟩) (fun hn => absurd hgc hn)
  · rw [if_neg hgc] at hget
    rw [hget]
    cases hcm : assocGet m1 gc with
    | none => exact rfl
    | some cat1 =>
        dsimp only
        cases hse : (assocSetdefault cat1 (pyUpper tk) JVal.objNil).1.entries? with
        | none => exact rfl
        | some settings =>
            dsimp only
            cases hig : assocGet settings "ignore" with
            | some iv =>
                dsimp only
                by_cases htr : pyTruthy iv = true
                · rw [if_pos htr, if_pos htr]
                  refine ⟨rfl, ?_⟩
                  exact TkmRel_set g K m1 m2 hrel gc _ _ (fun hg => absurd hg hgc)
                    (fun _ => rfl)
                · rw [if_neg htr, if_neg htr]
                  exact translateKeyCont_rel t X reg hreg pp gc tk tv aq
                    (assocSet m1 gc (assocSetdefault cat1 (pyUpper tk) JVal.objNil).2)
                    (assocSet m2 gc (assocSetdefault cat1 (pyUpper tk) JVal.objNil).2)
                    (assocSetdefault cat1 (pyUpper tk) JVal.objNil).2
                    (assocSetdefault cat1 (pyUpper tk) JVal.objNil).2
                    (pyUpper tk) settings g K
                    (TkmRel_set g K m1 m2 hrel gc _ _ (fun hg => absurd hg hgc) (fun _ => rfl))
                    (fun hg => absurd hg hgc) (fun _ => rfl)
            | none =>
                dsimp only
                exact translateKeyCont_rel t X reg hreg pp gc tk tv aq
                  (assocSet m1 gc (assocSetdefault cat1 (pyUpper tk) JVal.objNil).2)
                  (assocSet m2 gc (assocSetdefault cat1 (pyUpper tk) JVal.objNil).2)
                  (assocSetdefault cat1 (pyUpper tk) JVal.objNil).2
                  (assocSetdefault cat1 (pyUpper tk) JVal.objNil).2
                  (pyUpper tk) settings g K
                  (TkmRel_set g K m1 m2 hrel gc _ _ (fun hg => absurd hg hgc) (fun _ => rfl))
                  (fun hg => absurd hg hgc) (fun _ => rfl)

theorem translateValues_rel (t : MatchCriteriaTransform) (X : TKM) (reg : Registry)
    (hreg : ∀ n fn, reg n = some fn → ∀ tkm1 args,
      fn { t with trial_key_mappings := tkm1 } args = fn t args)
    (pp : List PathElem) (gc : String) (g K : String)
    (ves : List (String × JVal)) :
    ∀ (aq : AndClause) (m1 m2 : TKM), TkmRel g K m1 m2 →
    (gc = g → ∀ kv ∈ ves, ¬ pyUpper kv.1 = K) →
    ExTrRel g K (translateValues t reg pp gc ves aq m1)
      (translateValues { t with trial_key_mappings := X } reg pp gc ves aq m2) := by
  induction ves with
  | nil =>
      intro aq m1 m2 hrel _
      exact ⟨rfl, hrel⟩
  | cons kv rest ih =>
      intro aq m1 m2 hrel hks
      obtain ⟨tk, tv⟩ := kv
      unfold translateValues
      have hstep := translateKey_rel t X reg hreg pp gc tk tv aq m1 m2 g K hrel
        (fun hg => hks hg (tk, tv) (List.mem_cons_self _ _))
      cases h1 : translateKey t reg pp gc tk tv aq m1 with
      | error er =>
          rw [ExTrRel_error g K _ _ er hstep h1]
          exact rfl
      | ok p =>
          obtain ⟨aq1, m1o⟩ := p
          rcases ExTrRel_ok g K _ _ aq1 m1o hstep h1 with ⟨m2o, h2, hrel2⟩
          rw [h2]
          exact ih aq1 m1o m2o hrel2 (fun hg kv2 hkv2 => hks hg kv2 (List.mem_cons_of_mem _ hkv2))

theorem translateCriterion_rel (t : MatchCriteriaTransform) (X : TKM) (reg : Registry)
    (hreg : ∀ n fn, reg n = some fn → ∀ tkm1 args,
      fn { t with trial_key_mappings := tkm1 } args = fn t args)
    (pp : List PathElem) (g K : String) (ents : List (String × JVal)) :
    ∀ (cats : MCQ) (m1 m2 : TKM), TkmRel g K m1 m2 →
    (∀ e ∈ ents, e.1 = g → ∀ ves, (e.2 : JVal).entries? = some ves →
      ∀ kv ∈ ves, ¬ pyUpper kv.1 = K) →
    ExTrRel g K (translateCriterion t reg pp ents cats m1)
      (translateCriterion { t with trial_key_mappings := X } reg pp ents cats m2) := by
  induction ents with
  | nil =>
      intro cats m1 m2 hrel _
      exact ⟨rfl, hrel⟩
  | cons e rest ih =>
      intro cats m1 m2 hrel hnm
      obtain ⟨gc, values⟩ := e
      unfold translateCriterion
      cases hve : values.entries? with
      | none => exact rfl
      | some ventries =>
          dsimp only
          have hstep := translateValues_rel t X reg hreg pp gc g K ventries [] m1 m2 hrel
            (fun hg kv hkv => hnm (gc, values) (List.mem_cons_self _ _) hg ventries hve kv hkv)
          cases h1 : translateValues t reg pp gc ventries [] m1 with
          | error er =>
              rw [ExTrRel_error g K _ _ er hstep h1]
              exact rfl
          | ok p =>
              obtain ⟨aq, m1o⟩ := p
              rcases ExTrRel_ok g K _ _ aq m1o hstep h1 with ⟨m2o, h2, hrel2⟩
              rw [h2]
              exact ih (mcqAppend cats gc aq) m1o m2o hrel2
                (fun e2 he2 => hnm e2 (List.mem_cons_of_mem _ he2))

theorem translateCriteria_rel (t : MatchCriteriaTransform) (X : TKM) (reg : Registry)
    (hreg : ∀ n fn, reg n = some fn → ∀ tkm1 args,
      fn { t with trial_key_mappings := tkm1 } args = fn t args)
    (pp : List PathElem) (g K : String) (path : List JVal) :
    ∀ (cats : MCQ) (m1 m2 : TKM), TkmRel g K m1 m2 →
    (∀ crit ∈ path, ∀ ents, (crit : JVal).entries? = some ents →
      ∀ e ∈ ents, e.1 = g → ∀ ves, (e.2 : JVal).entries? = some ves →
        ∀ kv ∈ ves, ¬ pyUpper kv.1 = K) →
    ExTrRel g K (translateCriteria t reg pp path cats m1)
      (translateCriteria { t with trial_key_mappings := X } reg pp path cats m2) := by
  induction path with
  | nil =>
      intro cats m1 m2 hrel _
      exact ⟨rfl, hrel⟩
  | cons crit rest ih =>
      intro cats m1 m2 hrel hnm
      unfold translateCriteria
      cases hce : crit.entries? with
      | none => exact rfl
      | some ents =>
          dsimp only
          have hstep := translateCriterion_rel t X reg hreg pp g K ents cats m1 m2 hrel
            (fun e he => hnm crit (List.mem_cons_self _ _) ents hce e he)
          cases h1 : translateCriterion t reg pp ents cats m1 with
          | error er =>
              rw [ExTrRel_error g K _ _ er hstep h1]
              exact rfl
          | ok p =>
              obtain ⟨cats1, m1o⟩ := p
              rcases ExTrRel_ok g K _ _ cats1 m1o hstep h1 with ⟨m2o, h2, hrel2⟩
              rw [h2]
              exact ih cats1 m1o m2o hrel2
                (fun c hc => hnm c (List.mem_cons_of_mem _ hc))

/-- C7 (amended): deleting a trial-key entry from a category of the
configuration leaves the translated multi-collection query unchanged
exactly when the match path never mentions that key in that category (as
the counterexample shows, on a path that does mention the key the deletion
routes the key through the default nomap transform and the output changes).
The transform functions of the registry must not read the mutated
trial-key-mapping table, which holds for the spec-modelled registry. -/
theorem claim_C7 (t : MatchCriteriaTransform) (reg : Registry)
    (pp : List PathElem) (path : List JVal) (g K : String)
    (hreg : ∀ n fn, reg n = some fn → ∀ tkm1 args,
      fn { t with trial_key_mappings := tkm1 } args = fn t args)
    (hnm : ∀ crit ∈ path, ∀ ents, (crit : JVal).entries? = some ents →
      ∀ e ∈ ents, e.1 = g → ∀ ves, (e.2 : JVal).entries? = some ves →
        ∀ kv ∈ ves, ¬ pyUpper kv.1 = K) :
    (translate_match_path
        { t with trial_key_mappings := tkmDeleteKey t.trial_key_mappings g K }
        reg pp path).map Prod.fst
      = (translate_match_path t reg pp path).map Prod.fst := by
  have hrel := translateCriteria_rel t (tkmDeleteKey t.trial_key_mappings g K) reg hreg
    pp g K path [] t.trial_key_mappings (tkmDeleteKey t.trial_key_mappings g K)
    (TkmRel_init t.trial_key_mappings g K) hnm
  unfold translate_match_path
  cases h1 : translateCriteria t reg pp path [] t.trial_key_mappings with
  | error er =>
      rw [ExTrRel_error g K _ _ er hrel h1]
  | ok p =>
      obtain ⟨cats, m1o⟩ := p
      rcases ExTrRel_ok g K _ _ cats m1o hrel h1 with ⟨m2o, h2, _⟩
      rw [h2]
      rfl

/-- Witness for the amended C7: deleting the ignored AGE entry changes
nothing on a path that mentions a different key. -/
theorem claim_C7_witness :
    (translate_match_path
        { mctIgnoreAge with
          trial_key_mappings := tkmDeleteKey mctIgnoreAge.trial_key_mappings "clinical" "AGE" }
        registry0 [] [jobj [("clinical", jobj [("other", .str "v")])]]).map Prod.fst
      = (translate_match_path mctIgnoreAge registry0 []
          [jobj [("clinical", jobj [("other", .str "v")])]]).map Prod.fst := by
  refine claim_C7 mctIgnoreAge registry0 [] _ "clinical" "AGE" ?_ ?_
  · intro n fn hfn tkm1 args
    unfold registry0 at hfn
    split at hfn
    · cases hfn
      rfl
    · cases hfn
  · intro crit hcrit ents hents e he hg ves hves kv hkv
    simp only [List.mem_singleton] at hcrit
    subst hcrit
    have h3 : [("clinical", JVal.objCons "other" (JVal.str "v") JVal.objNil)] = ents := by
      simpa [jobj, JVal.entries?] using hents
    subst h3
    simp only [List.mem_singleton] at he
    subst he
    have h4 : [("other", JVal.str "v")] = ves := by
      simpa [jobj, JVal.entries?] using hves
    subst h4
    simp only [List.mem_singleton] at hkv
    subst hkv
    decide
